import Mathlib

/-!
# Verification of the geo_tech_demo publishing scripts

A shallow embedding of the demo repository's data model and operations:

* the fractional ordering scheme (`generateBetween`) used to order content
  blocks, modelled from the spec (the SDK implementation is not part of the
  repository source);
* the batch-construction loops of `02_publish_demo.ts` (topics, people,
  projects, text/data block attachment);
* the cleanup pass of `03_delete_demo.ts`;
* the helpers of `src/functions.ts` (`gql`, `publishOps`, `printOps`,
  `convertUuidBytes`, `isUuidByteArray`, `uuidBytesToString`);
* the identifier registry of `src/constants.ts`.

Machine strings are modelled as Lean `String`s, JS numbers inside JSON data
as Lean `Int` (the repository only ever handles integral numbers), and the
fractional ordering keys as base-`BASE` digit strings (`List Nat`).
-/

namespace GeoDemo

/-! ## Fractional ordering keys (spec §4.3)

Keys are short digit strings over an ordered alphabet of `BASE` symbols,
compared lexicographically.  The SDK's `Position.generateBetween` is not in
the repository source, so it is modelled from the spec: a base-N digit
string generator that returns a key strictly between its two bounds
(`null` meaning unbounded), never equal to either bound.  A key is valid
when it is non-empty, all its digits are in range, and it does not end in
the minimal digit (otherwise no key can sort strictly between it and its
immediate prefix, contradicting the spec's density invariant). -/

/-- Size of the ordered digit alphabet of the position encoding
("a base-N digit string"); 62 matches a printable alphanumeric alphabet. -/
def BASE : Nat := 62

/-- Lexicographic strict order on digit strings, exactly the raw
string comparison the spec prescribes for ordering keys. -/
def lexLt : List Nat → List Nat → Bool
  | _, [] => false
  | [], _ :: _ => true
  | a :: as, b :: bs => a < b || (a == b && lexLt as bs)

/-- `true` when the list does not end with the digit `0`
(the empty list vacuously qualifies). -/
def endsNonzero : List Nat → Bool
  | [] => true
  | [d] => d != 0
  | _ :: d :: rest => endsNonzero (d :: rest)

/-- A well-formed ordering key: non-empty, digits in range, and not ending
in the minimal digit (the density invariant of spec §3). -/
def validKey (k : List Nat) : Bool :=
  !k.isEmpty && k.all (· < BASE) && endsNonzero k

/-- Modelled from the spec: the "key after `a`" half of the ordering
generator — a key sorting strictly after `a` (used for an unbounded upper
bound).  Bumps the first digit that has room, else keeps the maximal digit
and recurses. -/
def keyAfter : List Nat → List Nat
  | [] => [1]
  | x :: xs => if x + 1 < BASE then [x + 1] else x :: keyAfter xs

/-- Modelled from the spec: the bounded half of the ordering generator — a
key sorting strictly between `a` and `b` under lexicographic comparison,
assuming `a < b` and `b` a valid key (`a` may be `[]`, the identity of the
lexicographic order, standing for an absent lower bound). -/
def keyBetween : List Nat → List Nat → List Nat
  | _, [] => []
  | [], y :: ys =>
    if 2 ≤ y then [y - 1]
    else
      match ys with
      | [] => [0, 1]
      | _ :: _ => 0 :: keyBetween [] ys
  | x :: xs, y :: ys =>
    if x = y then x :: keyBetween xs ys
    else if x + 1 < y then [x + 1]
    else if x < y then x :: keyAfter xs
    else []

/-- Modelled from the spec: `Position.generateBetween(lowerKeyOrNull,
upperKeyOrNull)` of the SDK (§4.3), with `none` standing for `null`
("no bound"). -/
def generateBetween (a b : Option (List Nat)) : List Nat :=
  match b with
  | none => keyAfter (a.getD [])
  | some bk => keyBetween (a.getD []) bk

theorem lexLt_irrefl (a : List Nat) : lexLt a a = false := by
  induction a with
  | nil => rfl
  | cons x xs ih => simp [lexLt, ih]

theorem lexLt_trans {a b c : List Nat} (hab : lexLt a b = true)
    (hbc : lexLt b c = true) : lexLt a c = true := by
  induction a generalizing b c with
  | nil =>
    cases b with
    | nil => simp [lexLt] at hab
    | cons y ys =>
      cases c with
      | nil => simp [lexLt] at hbc
      | cons z zs => simp [lexLt]
  | cons x xs ih =>
    cases b with
    | nil => simp [lexLt] at hab
    | cons y ys =>
      cases c with
      | nil => simp [lexLt] at hbc
      | cons z zs =>
        simp only [lexLt, Bool.or_eq_true, Bool.and_eq_true, beq_iff_eq,
          decide_eq_true_eq] at hab hbc ⊢
        rcases hab with h1 | ⟨h1, h1'⟩ <;> rcases hbc with h2 | ⟨h2, h2'⟩
        · exact Or.inl (Nat.lt_trans h1 h2)
        · exact Or.inl (h2 ▸ h1)
        · exact Or.inl (h1 ▸ h2)
        · exact Or.inr ⟨h1.trans h2, ih h1' h2'⟩

theorem lexLt_nil_of_ne_nil {b : List Nat} (h : b ≠ []) : lexLt [] b = true := by
  cases b with
  | nil => exact absurd rfl h
  | cons y ys => rfl

theorem keyAfter_gt (a : List Nat) : lexLt a (keyAfter a) = true := by
  induction a with
  | nil => rfl
  | cons x xs ih =>
    by_cases h : x + 1 < BASE
    · simp [keyAfter, h, lexLt]
    · simp [keyAfter, h, lexLt, ih]

theorem keyAfter_ne_nil (a : List Nat) : keyAfter a ≠ [] := by
  cases a with
  | nil => simp [keyAfter]
  | cons x xs => by_cases h : x + 1 < BASE <;> simp [keyAfter, h]

theorem keyAfter_all {a : List Nat} (ha : a.all (· < BASE) = true) :
    (keyAfter a).all (· < BASE) = true := by
  induction a with
  | nil => decide
  | cons x xs ih =>
    simp only [List.all_cons, Bool.and_eq_true, decide_eq_true_eq] at ha
    by_cases h : x + 1 < BASE
    · simp [keyAfter, h]
    · simp [keyAfter, h, List.all_cons, ha.1, ih ha.2]

theorem keyAfter_endsNonzero (a : List Nat) : endsNonzero (keyAfter a) = true := by
  induction a with
  | nil => decide
  | cons x xs ih =>
    by_cases h : x + 1 < BASE
    · simp [keyAfter, h, endsNonzero]
    · simp only [keyAfter, h, if_false]
      cases hk : keyAfter xs with
      | nil => exact absurd hk (keyAfter_ne_nil xs)
      | cons d rest =>
        rw [hk] at ih
        simpa [endsNonzero] using ih

theorem keyAfter_valid {a : List Nat} (ha : a.all (· < BASE) = true) :
    validKey (keyAfter a) = true := by
  have h2 := keyAfter_all ha
  have h3 := keyAfter_endsNonzero a
  simp only [validKey, h2, h3, Bool.and_true, Bool.and_eq_true,
    Bool.not_eq_true']
  cases hk : keyAfter a with
  | nil => exact absurd hk (keyAfter_ne_nil a)
  | cons d rest => simp

theorem lexLt_ne_nil_right {a b : List Nat} (h : lexLt a b = true) : b ≠ [] := by
  cases b with
  | nil => cases a <;> simp [lexLt] at h
  | cons y ys => simp

theorem validKey_parts {k : List Nat} (h : validKey k = true) :
    k ≠ [] ∧ k.all (· < BASE) = true ∧ endsNonzero k = true := by
  unfold validKey at h
  rw [Bool.and_eq_true, Bool.and_eq_true] at h
  obtain ⟨⟨he, hall⟩, hend⟩ := h
  refine ⟨?_, hall, hend⟩
  intro hk
  subst hk
  simp at he

theorem mk_validKey {k : List Nat} (hne : k ≠ [])
    (hall : k.all (· < BASE) = true) (hend : endsNonzero k = true) :
    validKey k = true := by
  unfold validKey
  rw [Bool.and_eq_true, Bool.and_eq_true]
  refine ⟨⟨?_, hall⟩, hend⟩
  cases k with
  | nil => exact absurd rfl hne
  | cons d rest => rfl

theorem endsNonzero_cons {x : Nat} {k : List Nat} (h : k ≠ []) :
    endsNonzero (x :: k) = endsNonzero k := by
  cases k with
  | nil => exact absurd rfl h
  | cons d rest => rfl

theorem keyBetween_spec (b : List Nat) : ∀ (a : List Nat),
    b ≠ [] → b.all (· < BASE) = true → endsNonzero b = true →
    a.all (· < BASE) = true → lexLt a b = true →
    lexLt a (keyBetween a b) = true ∧ lexLt (keyBetween a b) b = true ∧
      validKey (keyBetween a b) = true := by
  induction b with
  | nil => intro a h; exact absurd rfl h
  | cons y ys ih =>
    intro a _ hball hbe haall hab
    simp only [List.all_cons, Bool.and_eq_true, decide_eq_true_eq] at hball
    obtain ⟨hy, hys⟩ := hball
    cases a with
    | nil =>
      by_cases h2 : 2 ≤ y
      · simp only [keyBetween, h2, if_true]
        refine ⟨rfl, ?_, ?_⟩
        · simp [lexLt]; omega
        · simp [validKey, endsNonzero]; omega
      · simp only [keyBetween, h2, if_false]
        cases ys with
        | nil =>
          have hy1 : y = 1 := by
            simp [endsNonzero] at hbe; omega
          subst hy1
          exact ⟨rfl, by decide, by decide⟩
        | cons z zs =>
          have hbe' : endsNonzero (z :: zs) = true := by
            rw [endsNonzero_cons (by simp)] at hbe; exact hbe
          obtain ⟨ih1, ih2, ih3⟩ :=
            ih [] (by simp) hys hbe' (by simp) (lexLt_nil_of_ne_nil (by simp))
          obtain ⟨hne', hall', hend'⟩ := validKey_parts ih3
          refine ⟨rfl, ?_, ?_⟩
          · simp only [lexLt, Bool.or_eq_true, Bool.and_eq_true, beq_iff_eq,
              decide_eq_true_eq]
            rcases Nat.eq_zero_or_pos y with h0 | h0
            · exact Or.inr ⟨h0.symm, ih2⟩
            · exact Or.inl h0
          · refine mk_validKey (by simp) ?_ ?_
            · simp only [List.all_cons, Bool.and_eq_true, decide_eq_true_eq]
              exact ⟨by decide, hall'⟩
            · rw [endsNonzero_cons hne']; exact hend'
    | cons x xs =>
      simp only [List.all_cons, Bool.and_eq_true, decide_eq_true_eq] at haall
      obtain ⟨hx, hxs⟩ := haall
      simp only [lexLt, Bool.or_eq_true, Bool.and_eq_true, beq_iff_eq,
        decide_eq_true_eq] at hab
      by_cases hxy : x = y
      · subst hxy
        have hxsys : lexLt xs ys = true := by
          rcases hab with h | h
          · omega
          · exact h.2
        have hysne : ys ≠ [] := lexLt_ne_nil_right hxsys
        have hyse : endsNonzero ys = true := by
          rw [endsNonzero_cons hysne] at hbe; exact hbe
        obtain ⟨ih1, ih2, ih3⟩ := ih xs hysne hys hyse hxs hxsys
        obtain ⟨hne', hall', hend'⟩ := validKey_parts ih3
        have hkb : keyBetween (x :: xs) (x :: ys) = x :: keyBetween xs ys := by
          simp [keyBetween]
        rw [hkb]
        refine ⟨?_, ?_, ?_⟩
        · simp [lexLt, ih1]
        · simp [lexLt, ih2]
        · refine mk_validKey (by simp) ?_ ?_
          · simp only [List.all_cons, Bool.and_eq_true, decide_eq_true_eq]
            exact ⟨hx, hall'⟩
          · rw [endsNonzero_cons hne']; exact hend'
      · have hxlty : x < y := by
          rcases hab with h | h
          · exact h
          · exact absurd h.1 hxy
        by_cases hstep : x + 1 < y
        · simp only [keyBetween, if_neg hxy, if_pos hstep]
          refine ⟨?_, ?_, ?_⟩
          · simp [lexLt]
          · simp [lexLt, hstep]
          · refine mk_validKey (by simp) ?_ ?_
            · simp only [List.all_cons, List.all_nil, Bool.and_true,
                decide_eq_true_eq]
              omega
            · simp [endsNonzero]
        · simp only [keyBetween, if_neg hxy, if_neg hstep, if_pos hxlty]
          refine ⟨?_, ?_, ?_⟩
          · simp [lexLt, keyAfter_gt xs]
          · simp [lexLt, hxlty]
          · refine mk_validKey (by simp) ?_ ?_
            · simp only [List.all_cons, Bool.and_eq_true, decide_eq_true_eq]
              exact ⟨hx, keyAfter_all hxs⟩
            · rw [endsNonzero_cons (keyAfter_ne_nil xs)]
              exact keyAfter_endsNonzero xs

/-! ## Identifier registry (`src/constants.ts`)

A fixed mapping of well-known names to stable identifiers; pure data. -/

def ROOT_SPACE_ID : String := "a19c345ab9866679b001d7d2138d88a1"

/-- The `TYPES` constant object of `src/constants.ts`. -/
structure TypeRegistry where
  type : String
  property : String
  person : String
  project : String
  topic : String
  text_block : String
  data_block : String
  image : String

def TYPES : TypeRegistry :=
  { type       := "e7d737c536764c609fa16aa64a8c90ad"
    property   := "808a04ceb21c4d888ad12e240613e5ca"
    person     := "7ed45f2bc48b419e8e4664d5ff680b0d"
    project    := "484a18c5030a499cb0f2ef588ff16d50"
    topic      := "5ef5a5860f274d8e8f6c59ae5b3e89e2"
    text_block := "76474f2f00894e77a0410b39fb17d0bf"
    data_block := "b8803a8665de412bbb357e0c84adf473"
    image      := "ba4e41460010499da0a3caaa7f579d0e" }

/-- The `PROPERTIES` constant object of `src/constants.ts`. -/
structure PropertyRegistry where
  name : String
  description : String
  types : String
  web_url : String
  birth_date : String
  date_founded : String
  topics : String
  blocks : String
  markdown_content : String
  data_source_type : String
  filter : String
  collection_item : String
  view : String

def PROPERTIES : PropertyRegistry :=
  { name             := "a126ca530c8e48d5b88882c734c38935"
    description      := "9b1f76ff9711404c861e59dc3fa7d037"
    types            := "8f151ba4de204e3c9cb499ddf96f48f1"
    web_url          := "eed38e74e67946bf8a42ea3e4f8fb5fb"
    birth_date       := "60f8b943d9a742109356fc108ee7212c"
    date_founded     := "41aa3d9847b64a97b7ec427e575b910e"
    topics           := "458fbc070dbf4c928f5716f3fdde7c32"
    blocks           := "beaba5cba67741a8b35377030613fc70"
    markdown_content := "e3e363d1dd294ccb8e6ff3b76d99bc33"
    data_source_type := "1f69cc9880d444abad493df6a7b15ee4"
    filter           := "14a46854bfd14b1882152785c2dab9f3"
    collection_item  := "a99f9ce12ffa4dac8c61f6310d46064a"
    view             := "1907fd1c81114a3ca378b1f353425b65" }

def QUERY_DATA_SOURCE : String := "3b069b04adbe4728917d1283fd4ac27e"
def COLLECTION_DATA_SOURCE : String := "1295037a5d9c4d09b27c5502654b9177"

/-- The `VIEWS` constant object of `src/constants.ts`. -/
structure ViewRegistry where
  table : String
  list : String
  gallery : String
  bullets : String

def VIEWS : ViewRegistry :=
  { table   := "cba271cef7c140339047614d174c69f1"
    list    := "7d497dba09c249b8968f716bcf520473"
    gallery := "ccb70fc917f04a54b86e3b4d20cc7130"
    bullets := "0aaac6f7c916403eaf6d2e086dc92ada" }

/-- Every identifier of the registry, flattened into one list. -/
def registryIds : List String :=
  [ROOT_SPACE_ID,
   TYPES.type, TYPES.property, TYPES.person, TYPES.project, TYPES.topic,
   TYPES.text_block, TYPES.data_block, TYPES.image,
   PROPERTIES.name, PROPERTIES.description, PROPERTIES.types,
   PROPERTIES.web_url, PROPERTIES.birth_date, PROPERTIES.date_founded,
   PROPERTIES.topics, PROPERTIES.blocks, PROPERTIES.markdown_content,
   PROPERTIES.data_source_type, PROPERTIES.filter, PROPERTIES.collection_item,
   PROPERTIES.view,
   VIEWS.table, VIEWS.list, VIEWS.gallery, VIEWS.bullets,
   QUERY_DATA_SOURCE, COLLECTION_DATA_SOURCE]

/-! ## The operation builder (spec §4.2)

`Graph.createEntity` / `Graph.createRelation` come from the SDK, which is
not part of the repository source, so they are modelled from the spec: pure
functions that return a fresh id plus an ordered operation list and perform
no I/O.  Fresh ids are modelled by a threaded counter (the SDK draws random
uuids; the claims only need freshness and identity). -/

/-- An entity identifier: a well-known registry id (hex string) or an id
generated during batch construction. -/
inductive EId where
  | wellKnown (s : String)
  | gen (n : Nat)
deriving DecidableEq, Repr

/-- A `(property, kind, scalar)` value triple as passed to the builder. -/
structure ValueArg where
  property : String
  kind : String
  value : String
deriving DecidableEq, Repr

/-- Low-level operations produced by the builder. -/
inductive BOp where
  | createEntity (id : EId) (name description : Option String)
      (types : List String) (values : List ValueArg)
  | createRelation (id : EId) (fromEntity : EId) (relType : String)
      (toEntity : EId) (position : Option (List Nat))
deriving DecidableEq, Repr

/-- Modelled from the spec: expansion of a `relations` record
(`Record<relationType, Array<{toEntity}>>`) into one relation-creation
operation per target, each with a fresh relation id. -/
def mkRelList (fromE : EId) (rt : String) : List EId → Nat → List BOp × Nat
  | [], c => ([], c)
  | t :: ts, c =>
    let (ops, c') := mkRelList fromE rt ts (c + 1)
    (BOp.createRelation (EId.gen c) fromE rt t none :: ops, c')

def mkRelationOps (fromE : EId) : List (String × List EId) → Nat → List BOp × Nat
  | [], c => ([], c)
  | (rt, tos) :: rest, c =>
    let (ops1, c1) := mkRelList fromE rt tos c
    let (ops2, c2) := mkRelationOps fromE rest c1
    (ops1 ++ ops2, c2)

/-- Modelled from the spec: `Graph.createEntity` (§4.2) — returns a fresh
entity id and an ordered operation list: one entity-creation operation
followed by one relation-creation operation per entry of `relations`. -/
def createEntity (name description : Option String) (types : List String)
    (values : List ValueArg) (relations : List (String × List EId))
    (c : Nat) : (EId × List BOp) × Nat :=
  let id := EId.gen c
  let (relOps, c') := mkRelationOps id relations (c + 1)
  ((id, BOp.createEntity id name description types values :: relOps), c')

/-- Modelled from the spec: `Graph.createRelation` (§4.2) — returns a fresh
relation id and the relation-creation operation, followed by the operations
for `entityRelations` (sub-relations whose source is the new relation id). -/
def createRelation (fromE toE : EId) (relType : String)
    (position : Option (List Nat))
    (entityRelations : List (String × List EId)) (c : Nat) :
    (EId × List BOp) × Nat :=
  let rid := EId.gen c
  let (subOps, c') := mkRelationOps rid entityRelations (c + 1)
  ((rid, BOp.createRelation rid fromE relType toE position :: subOps), c')

/-! ## Batch construction loops of `02_publish_demo.ts` -/

/-- A record of `topics.json`. -/
structure TopicData where
  name : String
  description : String

/-- A record of `people.json` (`topics` absent is modelled as `[]`,
matching `person.topics || []`). -/
structure PersonData where
  name : String
  description : String
  web_url : Option String
  birth_date : Option String
  topics : List String

/-- A record of `projects.json`. -/
structure ProjectData where
  name : String
  description : String
  web_url : Option String
  date_founded : Option String
  topics : List String
  blocks : List String

/-- `extractValues` for a person record: iterates the `VALUE_PROPERTIES`
registry in declaration order (web_url, birth_date, date_founded) and keeps
the fields that are set; a person record has no `date_founded` field. -/
def extractValuesPerson (p : PersonData) : List ValueArg :=
  (match p.web_url with
   | some v => [{ property := PROPERTIES.web_url, kind := "text", value := v }]
   | none => []) ++
  (match p.birth_date with
   | some v => [{ property := PROPERTIES.birth_date, kind := "date", value := v }]
   | none => [])

/-- `extractValues` for a project record: a project record has no
`birth_date` field. -/
def extractValuesProject (p : ProjectData) : List ValueArg :=
  (match p.web_url with
   | some v => [{ property := PROPERTIES.web_url, kind := "text", value := v }]
   | none => []) ++
  (match p.date_founded with
   | some v => [{ property := PROPERTIES.date_founded, kind := "date", value := v }]
   | none => [])

/-- Name-to-id map (`topicIdsByName` etc.); assignment is modelled by
prepending, lookup returns the most recent binding. -/
def lookupName : List (String × EId) → String → Option EId
  | [], _ => none
  | (k, v) :: rest, s => if k = s then some v else lookupName rest s

/-- Step 2 of `main`: create one topic entity per record, recording its id
under the topic's name. -/
def buildTopics : List TopicData → List (String × EId) → Nat →
    List (EId × List BOp) × List (String × EId) × Nat
  | [], m, c => ([], m, c)
  | t :: ts, m, c =>
    let r := createEntity (some t.name) (some t.description) [TYPES.topic] [] [] c
    let rest := buildTopics ts ((t.name, r.1.1) :: m) r.2
    (r.1 :: rest.1, rest.2.1, rest.2.2)

/-- The topic-relation targets of a person/project record: names are
filtered through `topicIdsByName` (`.filter((t) => topicIdsByName[t])`) and
mapped to the recorded ids; generated ids are non-empty strings, so the JS
truthiness test coincides with map membership. -/
def topicRelationTargets (names : List String) (m : List (String × EId)) :
    List EId :=
  (names.filter (fun t => (lookupName m t).isSome)).map
    (fun t => (lookupName m t).getD (EId.gen 0))

/-- Step 3 of `main`: create a person entity with its values and its topic
relations (the relations record is only added when non-empty). -/
def buildPerson (p : PersonData) (m : List (String × EId)) (c : Nat) :
    (EId × List BOp) × Nat :=
  let values := extractValuesPerson p
  let targets := topicRelationTargets p.topics m
  let relations :=
    if targets.length > 0 then [(PROPERTIES.topics, targets)] else []
  createEntity (some p.name) (some p.description) [TYPES.person] values
    relations c

/-- Step 4 of `main`: create a project entity, same pattern as a person. -/
def buildProject (p : ProjectData) (m : List (String × EId)) (c : Nat) :
    (EId × List BOp) × Nat :=
  let values := extractValuesProject p
  let targets := topicRelationTargets p.topics m
  let relations :=
    if targets.length > 0 then [(PROPERTIES.topics, targets)] else []
  createEntity (some p.name) (some p.description) [TYPES.project] values
    relations c

/-! ## Content block attachment (steps 5 and 6 of `main`)

Every block — text blocks first, then data blocks — is attached to its
parent by a "Blocks" relation whose `position` is generated with
`Position.generateBetween(lastPosByEntity[parentId] ?? null, null)`; the
fresh position is then stored back into the per-parent map. -/

/-- One block attachment: which parent receives which block entity. -/
structure AttachEvent where
  parent : EId
  block : EId

/-- The `lastPosByEntity` map. -/
def lookupPos : List (EId × List Nat) → EId → Option (List Nat)
  | [], _ => none
  | (k, v) :: rest, p => if k = p then some v else lookupPos rest p

/-- The attachment loop: generate a position anchored on the parent's last
key (or `null`), update the map, create the Blocks relation. -/
def attachBlocks : List AttachEvent → List (EId × List Nat) → Nat →
    List BOp × List (EId × List Nat) × Nat
  | [], m, c => ([], m, c)
  | e :: es, m, c =>
    let pos := generateBetween (lookupPos m e.parent) none
    let r := createRelation e.parent e.block PROPERTIES.blocks (some pos) [] c
    let rest := attachBlocks es ((e.parent, pos) :: m) r.2
    (r.1.2 ++ rest.1, rest.2.1, rest.2.2)

/-- The ordering keys of the "Blocks" relations of parent `p`, in operation
order. -/
def blockRelPositions (p : EId) (ops : List BOp) : List (List Nat) :=
  ops.filterMap (fun op =>
    match op with
    | BOp.createRelation _ f rt _ (some pos) =>
      if f = p ∧ rt = PROPERTIES.blocks then some pos else none
    | _ => none)

/-- The (parent, block) endpoints of all "Blocks" relations, in operation
order. -/
def blockRelPairs (ops : List BOp) : List (EId × EId) :=
  ops.filterMap (fun op =>
    match op with
    | BOp.createRelation _ f rt t _ =>
      if rt = PROPERTIES.blocks then some (f, t) else none
    | _ => none)

/-- The sequence of positions handed out for one parent when it receives
`n` successive blocks starting from last-position state `o`. -/
def posChain : Option (List Nat) → Nat → List (List Nat)
  | _, 0 => []
  | o, n + 1 =>
    let k := generateBetween o none
    k :: posChain (some k) n

theorem generateBetween_none_valid {o : Option (List Nat)}
    (h : ∀ k, o = some k → validKey k = true) :
    validKey (generateBetween o none) = true := by
  cases o with
  | none => exact keyAfter_valid (by simp)
  | some k =>
    exact keyAfter_valid (validKey_parts (h k rfl)).2.1

theorem posChain_spec : ∀ (n : Nat) (o : Option (List Nat)),
    (∀ k, o = some k → validKey k = true) →
    (∀ q ∈ posChain o n, validKey q = true) ∧
    List.Pairwise (fun k1 k2 => lexLt k1 k2 = true) (posChain o n) ∧
    (∀ k, o = some k → ∀ q ∈ posChain o n, lexLt k q = true) := by
  intro n
  induction n with
  | zero => intro o _; simp [posChain]
  | succ n ih =>
    intro o ho
    have hk0 : validKey (generateBetween o none) = true :=
      generateBetween_none_valid ho
    obtain ⟨ihv, ihp, ihgt⟩ :=
      ih (some (generateBetween o none)) (by intro k hk; injection hk with hk; exact hk ▸ hk0)
    have htail := ihgt (generateBetween o none) rfl
    refine ⟨?_, ?_, ?_⟩
    · intro q hq
      simp only [posChain, List.mem_cons] at hq
      rcases hq with hq | hq
      · exact hq ▸ hk0
      · exact ihv q hq
    · simp only [posChain]
      exact List.Pairwise.cons htail ihp
    · intro k hko q hq
      simp only [posChain, List.mem_cons] at hq
      have hklt : lexLt k (generateBetween o none) = true := by
        rw [hko]
        exact keyAfter_gt k
      rcases hq with hq | hq
      · exact hq ▸ hklt
      · exact lexLt_trans hklt (htail q hq)

theorem attachBlocks_cons (e : AttachEvent) (es : List AttachEvent)
    (m : List (EId × List Nat)) (c : Nat) :
    (attachBlocks (e :: es) m c).1 =
      BOp.createRelation (EId.gen c) e.parent PROPERTIES.blocks e.block
        (some (generateBetween (lookupPos m e.parent) none)) ::
      (attachBlocks es
        ((e.parent, generateBetween (lookupPos m e.parent) none) :: m)
        (c + 1)).1 := rfl

theorem blockRelPositions_cons_rel (p rid f t : EId) (pos : List Nat)
    (ops : List BOp) :
    blockRelPositions p
        (BOp.createRelation rid f PROPERTIES.blocks t (some pos) :: ops) =
      if f = p then pos :: blockRelPositions p ops
      else blockRelPositions p ops := by
  by_cases h : f = p <;> simp [blockRelPositions, List.filterMap_cons, h]

theorem attachBlocks_positions :
    ∀ (events : List AttachEvent) (m : List (EId × List Nat)) (c : Nat)
      (p : EId),
    blockRelPositions p (attachBlocks events m c).1 =
      posChain (lookupPos m p) (events.countP (fun e => e.parent == p)) := by
  intro events
  induction events with
  | nil => intro m c p; rfl
  | cons e es ih =>
    intro m c p
    rw [attachBlocks_cons, blockRelPositions_cons_rel]
    by_cases hp : e.parent = p
    · rw [if_pos hp, ih]
      have hm' : lookupPos
          ((e.parent, generateBetween (lookupPos m e.parent) none) :: m) p =
          some (generateBetween (lookupPos m e.parent) none) := by
        simp [lookupPos, hp]
      rw [hm', hp]
      have hcnt : (e :: es).countP (fun e => e.parent == p) =
          es.countP (fun e => e.parent == p) + 1 := by
        simp [List.countP_cons, hp]
      rw [hcnt]
      rfl
    · rw [if_neg hp, ih]
      have hm' : lookupPos
          ((e.parent, generateBetween (lookupPos m e.parent) none) :: m) p =
          lookupPos m p := by
        simp [lookupPos, hp]
      have hcnt : (e :: es).countP (fun e => e.parent == p) =
          es.countP (fun e => e.parent == p) := by
        simp [List.countP_cons, hp]
      rw [hm', hcnt]

theorem attachBlocks_pairs :
    ∀ (events : List AttachEvent) (m : List (EId × List Nat)) (c : Nat),
    blockRelPairs (attachBlocks events m c).1 =
      events.map (fun e => (e.parent, e.block)) := by
  intro events
  induction events with
  | nil => intro m c; rfl
  | cons e es ih =>
    intro m c
    rw [attachBlocks_cons]
    simp [blockRelPairs, List.filterMap_cons]
    rw [← blockRelPairs]
    exact ih _ _

theorem lexLt_ne {a b : List Nat} (h : lexLt a b = true) : a ≠ b := by
  intro he
  subst he
  rw [lexLt_irrefl] at h
  cases h

/-- C1: for every pair of bounds `(a, b)` with `a < b` lexicographically, or
with either bound `null` (unbounded), `Position.generateBetween(a, b)`
returns a key strictly between the bounds — in particular never equal to
either bound — and the returned key is itself a valid key. -/
theorem generateBetween_strictly_between (a b : Option (List Nat))
    (ha : ∀ k, a = some k → validKey k = true)
    (hb : ∀ k, b = some k → validKey k = true)
    (hab : ∀ ka kb, a = some ka → b = some kb → lexLt ka kb = true) :
    (∀ ka, a = some ka →
      lexLt ka (generateBetween a b) = true ∧ generateBetween a b ≠ ka) ∧
    (∀ kb, b = some kb →
      lexLt (generateBetween a b) kb = true ∧ generateBetween a b ≠ kb) ∧
    validKey (generateBetween a b) = true := by
  cases a with
  | none =>
    cases b with
    | none =>
      refine ⟨?_, ?_, keyAfter_valid (by simp)⟩
      · intro ka h; cases h
      · intro kb h; cases h
    | some bk =>
      obtain ⟨hbne, hball, hbend⟩ := validKey_parts (hb bk rfl)
      obtain ⟨s1, s2, s3⟩ := keyBetween_spec bk [] hbne hball hbend (by simp)
        (lexLt_nil_of_ne_nil hbne)
      refine ⟨?_, ?_, s3⟩
      · intro ka h; cases h
      · intro kb h
        injection h with h
        subst h
        exact ⟨s2, lexLt_ne s2⟩
  | some ak =>
    obtain ⟨hane, haall, haend⟩ := validKey_parts (ha ak rfl)
    cases b with
    | none =>
      refine ⟨?_, ?_, keyAfter_valid haall⟩
      · intro ka h
        injection h with h
        subst h
        exact ⟨keyAfter_gt ak, fun he => lexLt_ne (keyAfter_gt ak) he.symm⟩
      · intro kb h; cases h
    | some bk =>
      obtain ⟨hbne, hball, hbend⟩ := validKey_parts (hb bk rfl)
      obtain ⟨s1, s2, s3⟩ := keyBetween_spec bk ak hbne hball hbend haall
        (hab ak bk rfl rfl)
      refine ⟨?_, ?_, s3⟩
      · intro ka h
        injection h with h
        subst h
        exact ⟨s1, fun he => lexLt_ne s1 he.symm⟩
      · intro kb h
        injection h with h
        subst h
        exact ⟨s2, lexLt_ne s2⟩

/-- Witness for C1 at the concrete bounds `a = [5]`, `b = [7]`. -/
theorem generateBetween_strictly_between_witness :
    lexLt [5] (generateBetween (some [5]) (some [7])) = true ∧
    lexLt (generateBetween (some [5]) (some [7])) [7] = true ∧
    generateBetween (some [5]) (some [7]) ≠ [5] ∧
    generateBetween (some [5]) (some [7]) ≠ [7] ∧
    validKey (generateBetween (some [5]) (some [7])) = true := by
  have h := generateBetween_strictly_between (some [5]) (some [7])
    (by intro k hk; injection hk with hk; subst hk; decide)
    (by intro k hk; injection hk with hk; subst hk; decide)
    (by intro ka kb hka hkb; injection hka with hka; injection hkb with hkb;
        subst hka; subst hkb; decide)
  obtain ⟨h1, h2, h3⟩ := h
  obtain ⟨l1, l2⟩ := h1 [5] rfl
  obtain ⟨u1, u2⟩ := h2 [7] rfl
  exact ⟨l1, u1, l2, u2, h3⟩

/-- C2: during one batch construction starting from an empty per-parent
last-position map, attaching a sequence of content blocks produces exactly
one "Blocks" relation per block, endpoints in attachment order, and for
every parent entity the ordering keys of its "Blocks" relations are
strictly increasing in attachment order (each key is generated anchored on
the parent's last key tracked in the batch-local map). -/
theorem attachBlocks_one_relation_per_block_increasing
    (events : List AttachEvent) :
    blockRelPairs (attachBlocks events [] 0).1 =
      events.map (fun e => (e.parent, e.block)) ∧
    ∀ p, List.Pairwise (fun k1 k2 => lexLt k1 k2 = true)
      (blockRelPositions p (attachBlocks events [] 0).1) := by
  refine ⟨attachBlocks_pairs events [] 0, ?_⟩
  intro p
  rw [attachBlocks_positions]
  have h := posChain_spec (events.countP (fun e => e.parent == p))
    (lookupPos [] p) (by intro k hk; cases hk)
  exact h.2.1

/-! ## Per-group operation analysis (claims about steps 2–4 of `main`) -/

/-- Targets of the relation-creation operations of relation type `rt`, in
operation order. -/
def relTargetsOf (rt : String) (ops : List BOp) : List EId :=
  ops.filterMap (fun op =>
    match op with
    | BOp.createRelation _ _ rt' t _ => if rt' = rt then some t else none
    | _ => none)

def countCreateEntity (ops : List BOp) : Nat :=
  ops.countP (fun op =>
    match op with
    | BOp.createEntity _ _ _ _ _ => true
    | _ => false)

def countCreateRelation (ops : List BOp) : Nat :=
  ops.countP (fun op =>
    match op with
    | BOp.createRelation _ _ _ _ _ => true
    | _ => false)

theorem mkRelList_cons (fromE : EId) (rt : String) (t : EId) (ts : List EId)
    (c : Nat) :
    (mkRelList fromE rt (t :: ts) c).1 =
      BOp.createRelation (EId.gen c) fromE rt t none ::
        (mkRelList fromE rt ts (c + 1)).1 := rfl

theorem relTargetsOf_cons_rel (rt : String) (rid f t : EId)
    (rt' : String) (pos : Option (List Nat)) (ops : List BOp) :
    relTargetsOf rt (BOp.createRelation rid f rt' t pos :: ops) =
      if rt' = rt then t :: relTargetsOf rt ops else relTargetsOf rt ops := by
  by_cases h : rt' = rt <;> simp [relTargetsOf, List.filterMap_cons, h]

theorem relTargetsOf_cons_ent (rt : String) (id : EId)
    (name description : Option String) (types : List String)
    (values : List ValueArg) (ops : List BOp) :
    relTargetsOf rt (BOp.createEntity id name description types values :: ops) =
      relTargetsOf rt ops := by
  simp [relTargetsOf, List.filterMap_cons]

theorem countCE_cons_rel (rid f t : EId) (rt : String)
    (pos : Option (List Nat)) (ops : List BOp) :
    countCreateEntity (BOp.createRelation rid f rt t pos :: ops) =
      countCreateEntity ops := by
  simp [countCreateEntity, List.countP_cons]

theorem countCE_cons_ent (id : EId) (name description : Option String)
    (types : List String) (values : List ValueArg) (ops : List BOp) :
    countCreateEntity (BOp.createEntity id name description types values :: ops) =
      countCreateEntity ops + 1 := by
  simp [countCreateEntity, List.countP_cons]

theorem countCR_cons_rel (rid f t : EId) (rt : String)
    (pos : Option (List Nat)) (ops : List BOp) :
    countCreateRelation (BOp.createRelation rid f rt t pos :: ops) =
      countCreateRelation ops + 1 := by
  simp [countCreateRelation, List.countP_cons]

theorem countCR_cons_ent (id : EId) (name description : Option String)
    (types : List String) (values : List ValueArg) (ops : List BOp) :
    countCreateRelation (BOp.createEntity id name description types values :: ops) =
      countCreateRelation ops := by
  simp [countCreateRelation, List.countP_cons]

theorem mkRelList_targets (fromE : EId) (rt : String) :
    ∀ (tos : List EId) (c : Nat),
    relTargetsOf rt (mkRelList fromE rt tos c).1 = tos := by
  intro tos
  induction tos with
  | nil => intro c; rfl
  | cons t ts ih =>
    intro c
    rw [mkRelList_cons, relTargetsOf_cons_rel, if_pos rfl, ih (c + 1)]

theorem mkRelList_countCE (fromE : EId) (rt : String) :
    ∀ (tos : List EId) (c : Nat),
    countCreateEntity (mkRelList fromE rt tos c).1 = 0 := by
  intro tos
  induction tos with
  | nil => intro c; rfl
  | cons t ts ih =>
    intro c
    rw [mkRelList_cons, countCE_cons_rel, ih (c + 1)]

theorem mkRelList_countCR (fromE : EId) (rt : String) :
    ∀ (tos : List EId) (c : Nat),
    countCreateRelation (mkRelList fromE rt tos c).1 = tos.length := by
  intro tos
  induction tos with
  | nil => intro c; rfl
  | cons t ts ih =>
    intro c
    rw [mkRelList_cons, countCR_cons_rel, ih (c + 1)]
    simp

theorem topicRelationTargets_eq (names : List String)
    (m : List (String × EId)) :
    topicRelationTargets names m =
      names.filterMap (fun t => lookupName m t) := by
  induction names with
  | nil => rfl
  | cons n ns ih =>
    cases h : lookupName m n with
    | none =>
      simp only [topicRelationTargets, List.filter_cons, List.filterMap_cons, h,
        Option.isSome_none, Bool.false_eq_true, if_false]
      rw [← topicRelationTargets]
      exact ih
    | some v =>
      simp only [topicRelationTargets, List.filter_cons, List.filterMap_cons, h,
        Option.isSome_some, if_true, List.map_cons, Option.getD_some]
      rw [← topicRelationTargets]
      exact congrArg (v :: ·) ih

theorem createEntity_no_relations (nm ds : Option String) (tys : List String)
    (vals : List ValueArg) (c : Nat) :
    createEntity nm ds tys vals [] c =
      ((EId.gen c, [BOp.createEntity (EId.gen c) nm ds tys vals]), c + 1) := rfl

theorem mkRelationOps_single (fromE : EId) (rt : String) (tos : List EId)
    (c : Nat) :
    (mkRelationOps fromE [(rt, tos)] c).1 = (mkRelList fromE rt tos c).1 := by
  simp [mkRelationOps, mkRelList]

/-- Analysis of a `createEntity` group built with the demo's
"`relations` only when non-empty" pattern: one entity-creation operation,
one relation-creation operation per topic target, targets in input order. -/
theorem createEntity_topics_analysis (nm ds : Option String)
    (tys : List String) (vals : List ValueArg) (targets : List EId) (c : Nat) :
    countCreateEntity (createEntity nm ds tys vals
      (if targets.length > 0 then [(PROPERTIES.topics, targets)] else [])
      c).1.2 = 1 ∧
    countCreateRelation (createEntity nm ds tys vals
      (if targets.length > 0 then [(PROPERTIES.topics, targets)] else [])
      c).1.2 = targets.length ∧
    relTargetsOf PROPERTIES.topics (createEntity nm ds tys vals
      (if targets.length > 0 then [(PROPERTIES.topics, targets)] else [])
      c).1.2 = targets := by
  cases targets with
  | nil =>
    simp only [List.length_nil, gt_iff_lt, Nat.lt_irrefl, if_false]
    rw [createEntity_no_relations]
    refine ⟨?_, ?_, ?_⟩
    · rw [show [BOp.createEntity (EId.gen c) nm ds tys vals] =
        BOp.createEntity (EId.gen c) nm ds tys vals :: [] from rfl,
        countCE_cons_ent]
      rfl
    · rfl
    · rfl
  | cons t ts =>
    simp only [List.length_cons, gt_iff_lt, Nat.succ_pos, if_true]
    have hops : (createEntity nm ds tys vals
        [(PROPERTIES.topics, t :: ts)] c).1.2 =
        BOp.createEntity (EId.gen c) nm ds tys vals ::
          (mkRelList (EId.gen c) PROPERTIES.topics (t :: ts) (c + 1)).1 := by
      show BOp.createEntity (EId.gen c) nm ds tys vals ::
          (mkRelationOps (EId.gen c) [(PROPERTIES.topics, t :: ts)] (c + 1)).1 =
        _
      rw [mkRelationOps_single]
    rw [hops]
    refine ⟨?_, ?_, ?_⟩
    · rw [countCE_cons_ent, mkRelList_countCE]
    · rw [countCR_cons_ent, mkRelList_countCR]
      simp
    · rw [relTargetsOf_cons_ent, mkRelList_targets]

theorem buildPerson_analysis (p : PersonData) (m : List (String × EId))
    (c : Nat) :
    countCreateEntity (buildPerson p m c).1.2 = 1 ∧
    countCreateRelation (buildPerson p m c).1.2 =
      (p.topics.filterMap (fun t => lookupName m t)).length ∧
    relTargetsOf PROPERTIES.topics (buildPerson p m c).1.2 =
      p.topics.filterMap (fun t => lookupName m t) := by
  rw [← topicRelationTargets_eq]
  exact createEntity_topics_analysis (some p.name) (some p.description)
    [TYPES.person] (extractValuesPerson p) (topicRelationTargets p.topics m) c

theorem buildProject_analysis (p : ProjectData) (m : List (String × EId))
    (c : Nat) :
    countCreateEntity (buildProject p m c).1.2 = 1 ∧
    countCreateRelation (buildProject p m c).1.2 =
      (p.topics.filterMap (fun t => lookupName m t)).length ∧
    relTargetsOf PROPERTIES.topics (buildProject p m c).1.2 =
      p.topics.filterMap (fun t => lookupName m t) := by
  rw [← topicRelationTargets_eq]
  exact createEntity_topics_analysis (some p.name) (some p.description)
    [TYPES.project] (extractValuesProject p) (topicRelationTargets p.topics m) c

/-- C3: three topic records with distinct names A, B, C yield exactly one
entity-creation group per topic with no relation operations; a subsequent
person record whose topics list is `[A, C]` yields exactly 2 topic relation
operations, pointing at the entity ids generated for A and C, in that
input order. -/
theorem topics_then_person_scenario (tA tB tC : TopicData) (p : PersonData)
    (hAB : tA.name ≠ tB.name) (hAC : tA.name ≠ tC.name)
    (_hBC : tB.name ≠ tC.name) (hp : p.topics = [tA.name, tC.name]) :
    (buildTopics [tA, tB, tC] [] 0).1.length = 3 ∧
    (∀ g ∈ (buildTopics [tA, tB, tC] [] 0).1,
      countCreateEntity g.2 = 1 ∧ countCreateRelation g.2 = 0) ∧
    lookupName (buildTopics [tA, tB, tC] [] 0).2.1 tA.name =
      some (EId.gen 0) ∧
    lookupName (buildTopics [tA, tB, tC] [] 0).2.1 tC.name =
      some (EId.gen 2) ∧
    countCreateRelation
      (buildPerson p (buildTopics [tA, tB, tC] [] 0).2.1
        (buildTopics [tA, tB, tC] [] 0).2.2).1.2 = 2 ∧
    relTargetsOf PROPERTIES.topics
      (buildPerson p (buildTopics [tA, tB, tC] [] 0).2.1
        (buildTopics [tA, tB, tC] [] 0).2.2).1.2 =
      [EId.gen 0, EId.gen 2] := by
  have hbt : buildTopics [tA, tB, tC] [] 0 =
      ([(EId.gen 0, [BOp.createEntity (EId.gen 0) (some tA.name)
          (some tA.description) [TYPES.topic] []]),
        (EId.gen 1, [BOp.createEntity (EId.gen 1) (some tB.name)
          (some tB.description) [TYPES.topic] []]),
        (EId.gen 2, [BOp.createEntity (EId.gen 2) (some tC.name)
          (some tC.description) [TYPES.topic] []])],
       [(tC.name, EId.gen 2), (tB.name, EId.gen 1), (tA.name, EId.gen 0)],
       3) := rfl
  have hA : lookupName (buildTopics [tA, tB, tC] [] 0).2.1 tA.name =
      some (EId.gen 0) := by
    rw [hbt]
    simp [lookupName, Ne.symm hAC, Ne.symm hAB]
  have hC : lookupName (buildTopics [tA, tB, tC] [] 0).2.1 tC.name =
      some (EId.gen 2) := by
    rw [hbt]
    simp [lookupName]
  obtain ⟨pce, pcr, ptg⟩ := buildPerson_analysis p
    (buildTopics [tA, tB, tC] [] 0).2.1 (buildTopics [tA, tB, tC] [] 0).2.2
  have htargets : p.topics.filterMap
      (fun t => lookupName (buildTopics [tA, tB, tC] [] 0).2.1 t) =
      [EId.gen 0, EId.gen 2] := by
    rw [hp]
    simp [List.filterMap_cons, hA, hC]
  refine ⟨by rw [hbt]; rfl, ?_, hA, hC, ?_, ?_⟩
  · rw [hbt]
    intro g hg
    simp only [List.mem_cons, List.not_mem_nil, or_false] at hg
    rcases hg with hg | hg | hg <;>
      (subst hg; exact ⟨rfl, rfl⟩)
  · rw [pcr, htargets]
    rfl
  · rw [ptg, htargets]

/-- Concrete records for the C3 witness. -/
def topicA : TopicData := { name := "A", description := "dA" }

def topicB : TopicData := { name := "B", description := "dB" }

def topicC : TopicData := { name := "C", description := "dC" }

def personP : PersonData :=
  { name := "P", description := "dP", web_url := none, birth_date := none,
    topics := ["A", "C"] }

/-- Witness for C3 at concrete topic records named "A", "B", "C" and a
person referencing `["A", "C"]`. -/
theorem topics_then_person_scenario_witness :
    countCreateRelation
      (buildPerson personP (buildTopics [topicA, topicB, topicC] [] 0).2.1
        (buildTopics [topicA, topicB, topicC] [] 0).2.2).1.2 = 2 ∧
    relTargetsOf PROPERTIES.topics
      (buildPerson personP (buildTopics [topicA, topicB, topicC] [] 0).2.1
        (buildTopics [topicA, topicB, topicC] [] 0).2.2).1.2 =
      [EId.gen 0, EId.gen 2] := by
  have h := topics_then_person_scenario topicA topicB topicC personP
    (by decide) (by decide) (by decide) rfl
  exact ⟨h.2.2.2.2.1, h.2.2.2.2.2⟩

/-- C8: unknown topic names are silently dropped.  For every person or
project record and name-to-id map, building the entity never fails (the
builder is total and always emits exactly one entity-creation operation),
and the topic relation operations target exactly the names that resolve in
the map, in input order — names with no recorded topic entity produce no
operation and no error. -/
theorem unknown_topics_dropped (p : PersonData) (q : ProjectData)
    (m : List (String × EId)) (c c' : Nat) :
    countCreateEntity (buildPerson p m c).1.2 = 1 ∧
    relTargetsOf PROPERTIES.topics (buildPerson p m c).1.2 =
      p.topics.filterMap (fun t => lookupName m t) ∧
    countCreateEntity (buildProject q m c').1.2 = 1 ∧
    relTargetsOf PROPERTIES.topics (buildProject q m c').1.2 =
      q.topics.filterMap (fun t => lookupName m t) := by
  obtain ⟨h1, _, h2⟩ := buildPerson_analysis p m c
  obtain ⟨h3, _, h4⟩ := buildProject_analysis q m c'
  exact ⟨h1, h2, h3, h4⟩

/-! ## Persisted batch records and the cleanup pass
(`03_delete_demo.ts`, README Part 4)

The cleanup script reads a persisted operation list (a flat list of
operation records, §6), emits one `Graph.updateEntity` group per distinct
created entity id whose recorded value list is non-empty, and one
`Graph.deleteRelation` per distinct created relation id. -/

/-- A value record of a persisted `createEntity` operation: the property id
and the serialized scalar (§6 lists the fields relevant to each record
kind; a persisted value record always carries its property id). -/
structure ValueRec where
  property : String
  value : String
deriving DecidableEq, Repr

/-- A persisted operation record, tagged with its operation kind. -/
inductive OpRec where
  | createEntity (id : String) (values : List ValueRec)
  | createRelation (id : String) (fromEntity : String) (relType : String)
      (toEntity : String) (position : Option String)
  | updateEntity (id : String) (unset : List String)
  | deleteRelation (id : String)
deriving DecidableEq, Repr

def isCreateEntityFor (entityId : String) (op : OpRec) : Bool :=
  match op with
  | OpRec.createEntity id _ => id == entityId
  | _ => false

/-- `getPropertyIdsFromUpdateOp`: the property ids of the first
`createEntity` record carrying `entityId` (the script additionally filters
out null/undefined property fields, which cannot occur in persisted value
records). -/
def getPropertyIdsFromUpdateOp (ops : List OpRec) (entityId : String) :
    List String :=
  match ops.find? (isCreateEntityFor entityId) with
  | some (OpRec.createEntity _ values) => values.map (·.property)
  | _ => []

/-- `[...new Set(list)]`: first occurrences, in first-occurrence order
(fuelled recursion; the fuel `l.length` always suffices). -/
def firstDedupAux : Nat → List String → List String
  | 0, _ => []
  | _ + 1, [] => []
  | fuel + 1, x :: xs => x :: firstDedupAux fuel (xs.filter (fun y => y != x))

def firstDedup (l : List String) : List String := firstDedupAux l.length l

def createEntityIds (ops : List OpRec) : List String :=
  ops.filterMap (fun op =>
    match op with
    | OpRec.createEntity id _ => some id
    | _ => none)

def createRelationIds (ops : List OpRec) : List String :=
  ops.filterMap (fun op =>
    match op with
    | OpRec.createRelation id _ _ _ _ => some id
    | _ => none)

/-- Modelled from the spec: `Graph.updateEntity(id, unset)` (§4.2) — emits
the compensating operation list removing values for the given properties. -/
def updateEntityOps (id : String) (unset : List String) : List OpRec :=
  [OpRec.updateEntity id unset]

/-- Modelled from the spec: `Graph.deleteRelation(id)` (§4.2) — emits the
removal operation for the relation id. -/
def deleteRelationOps (id : String) : List OpRec :=
  [OpRec.deleteRelation id]

/-- The update-emitting loop of the cleanup script over the deduplicated
entity ids. -/
def updatesFor (ops : List OpRec) (ids : List String) : List OpRec :=
  ids.foldr
    (fun id acc =>
      (if (getPropertyIdsFromUpdateOp ops id).length > 0
       then updateEntityOps id (getPropertyIdsFromUpdateOp ops id)
       else []) ++ acc) []

/-- The delete-emitting loop of the cleanup script over the deduplicated
relation ids. -/
def deletesFor (ids : List String) : List OpRec :=
  ids.foldr (fun id acc => deleteRelationOps id ++ acc) []

/-- The whole cleanup pass (`03_delete_demo.ts`): compensating updates for
all created entities with recorded values, then deletions for all created
relations. -/
def delOps (ops : List OpRec) : List OpRec :=
  updatesFor ops (firstDedup (createEntityIds ops)) ++
    deletesFor (firstDedup (createRelationIds ops))

def isUpdateFor (e : String) (op : OpRec) : Bool :=
  match op with
  | OpRec.updateEntity id _ => id == e
  | _ => false

def isDeleteFor (r : String) (op : OpRec) : Bool :=
  match op with
  | OpRec.deleteRelation id => id == r
  | _ => false

theorem firstDedupAux_subset :
    ∀ (fuel : Nat) (l : List String) (a : String),
    a ∈ firstDedupAux fuel l → a ∈ l := by
  intro fuel
  induction fuel with
  | zero => intro l a h; simp [firstDedupAux] at h
  | succ fuel ih =>
    intro l a h
    cases l with
    | nil => simp [firstDedupAux] at h
    | cons x xs =>
      simp only [firstDedupAux, List.mem_cons] at h ⊢
      rcases h with h | h
      · exact Or.inl h
      · have := ih _ a h
        rw [List.mem_filter] at this
        exact Or.inr this.1

theorem firstDedupAux_mem_of_le :
    ∀ (fuel : Nat) (l : List String), l.length ≤ fuel →
    ∀ a ∈ l, a ∈ firstDedupAux fuel l := by
  intro fuel
  induction fuel with
  | zero =>
    intro l hl a ha
    rw [Nat.le_zero, List.length_eq_zero] at hl
    subst hl
    simp at ha
  | succ fuel ih =>
    intro l hl a ha
    cases l with
    | nil => simp at ha
    | cons x xs =>
      simp only [firstDedupAux, List.mem_cons]
      rcases List.mem_cons.mp ha with h | h
      · exact Or.inl h
      · by_cases hax : a = x
        · exact Or.inl hax
        · refine Or.inr (ih _ ?_ a ?_)
          · calc (xs.filter (fun y => y != x)).length ≤ xs.length :=
                  List.length_filter_le _ _
              _ ≤ fuel := Nat.succ_le_succ_iff.mp hl
          · rw [List.mem_filter]
            exact ⟨h, by simp [hax]⟩

theorem firstDedupAux_nodup :
    ∀ (fuel : Nat) (l : List String), (firstDedupAux fuel l).Nodup := by
  intro fuel
  induction fuel with
  | zero => intro l; simp [firstDedupAux]
  | succ fuel ih =>
    intro l
    cases l with
    | nil => simp [firstDedupAux]
    | cons x xs =>
      simp only [firstDedupAux, List.nodup_cons]
      refine ⟨?_, ih _⟩
      intro hx
      have := firstDedupAux_subset _ _ _ hx
      rw [List.mem_filter] at this
      simp at this

theorem firstDedup_mem (l : List String) (a : String) :
    a ∈ firstDedup l ↔ a ∈ l :=
  ⟨firstDedupAux_subset _ _ _, firstDedupAux_mem_of_le _ _ (Nat.le_refl _) a⟩

theorem firstDedup_nodup (l : List String) : (firstDedup l).Nodup :=
  firstDedupAux_nodup _ _

theorem updatesFor_countP_upd (ops : List OpRec) (e : String) :
    ∀ (ids : List String), ids.Nodup →
    (updatesFor ops ids).countP (isUpdateFor e) =
      if e ∈ ids ∧ getPropertyIdsFromUpdateOp ops e ≠ [] then 1 else 0 := by
  intro ids
  induction ids with
  | nil => intro _; simp [updatesFor]
  | cons id ids ih =>
    intro hnd
    rw [List.nodup_cons] at hnd
    have hrest := ih hnd.2
    have hstep : updatesFor ops (id :: ids) =
        (if (getPropertyIdsFromUpdateOp ops id).length > 0
         then updateEntityOps id (getPropertyIdsFromUpdateOp ops id)
         else []) ++ updatesFor ops ids := rfl
    rw [hstep, List.countP_append, hrest]
    by_cases he : e = id
    · subst he
      have hnotin : ¬(e ∈ ids ∧ getPropertyIdsFromUpdateOp ops e ≠ []) := by
        intro h
        exact hnd.1 h.1
      rw [if_neg hnotin]
      by_cases hp : (getPropertyIdsFromUpdateOp ops e).length > 0
      · rw [if_pos hp]
        have : (updateEntityOps e
            (getPropertyIdsFromUpdateOp ops e)).countP (isUpdateFor e) = 1 := by
          simp [updateEntityOps, List.countP_cons, isUpdateFor]
        rw [this, if_pos]
        refine ⟨List.mem_cons_self _ _, ?_⟩
        intro hnil
        rw [hnil] at hp
        simp at hp
      · rw [if_neg hp]
        have hnil : getPropertyIdsFromUpdateOp ops e = [] := by
          cases h : getPropertyIdsFromUpdateOp ops e with
          | nil => rfl
          | cons a l => rw [h] at hp; simp at hp
        rw [if_neg]
        · simp
        · intro h
          exact h.2 hnil
    · have hhead : (if (getPropertyIdsFromUpdateOp ops id).length > 0
          then updateEntityOps id (getPropertyIdsFromUpdateOp ops id)
          else []).countP (isUpdateFor e) = 0 := by
        by_cases hp : (getPropertyIdsFromUpdateOp ops id).length > 0
        · rw [if_pos hp]
          simp [updateEntityOps, List.countP_cons, isUpdateFor, Ne.symm he]
        · rw [if_neg hp]
          rfl
      rw [hhead]
      have : (e ∈ id :: ids ∧ getPropertyIdsFromUpdateOp ops e ≠ []) ↔
          (e ∈ ids ∧ getPropertyIdsFromUpdateOp ops e ≠ []) := by
        constructor
        · intro h
          rcases List.mem_cons.mp h.1 with h1 | h1
          · exact absurd h1 he
          · exact ⟨h1, h.2⟩
        · intro h
          exact ⟨List.mem_cons_of_mem _ h.1, h.2⟩
      rw [if_congr this rfl rfl]
      simp

theorem updatesFor_mem (ops : List OpRec) :
    ∀ (ids : List String) (e : String) (props : List String),
    OpRec.updateEntity e props ∈ updatesFor ops ids →
    props = getPropertyIdsFromUpdateOp ops e := by
  intro ids
  induction ids with
  | nil => intro e props h; simp [updatesFor] at h
  | cons id ids ih =>
    intro e props h
    have hstep : updatesFor ops (id :: ids) =
        (if (getPropertyIdsFromUpdateOp ops id).length > 0
         then updateEntityOps id (getPropertyIdsFromUpdateOp ops id)
         else []) ++ updatesFor ops ids := rfl
    rw [hstep, List.mem_append] at h
    rcases h with h | h
    · by_cases hp : (getPropertyIdsFromUpdateOp ops id).length > 0
      · rw [if_pos hp] at h
        simp only [updateEntityOps, List.mem_cons, List.not_mem_nil,
          or_false] at h
        injection h with h1 h2
        subst h1
        exact h2
      · rw [if_neg hp] at h
        simp at h
    · exact ih e props h

theorem deletesFor_countP_del (r : String) :
    ∀ (ids : List String), ids.Nodup →
    (deletesFor ids).countP (isDeleteFor r) = if r ∈ ids then 1 else 0 := by
  intro ids
  induction ids with
  | nil => intro _; simp [deletesFor]
  | cons id ids ih =>
    intro hnd
    rw [List.nodup_cons] at hnd
    have hstep : deletesFor (id :: ids) =
        deleteRelationOps id ++ deletesFor ids := rfl
    rw [hstep, List.countP_append, ih hnd.2]
    by_cases he : r = id
    · subst he
      rw [if_neg hnd.1, if_pos (List.mem_cons_self _ _)]
      simp [deleteRelationOps, List.countP_cons, isDeleteFor]
    · have : (deleteRelationOps id).countP (isDeleteFor r) = 0 := by
        simp [deleteRelationOps, List.countP_cons, isDeleteFor, Ne.symm he]
      rw [this]
      by_cases hr : r ∈ ids
      · rw [if_pos hr, if_pos (List.mem_cons_of_mem _ hr)]
      · rw [if_neg hr, if_neg]
        intro h
        rcases List.mem_cons.mp h with h | h
        · exact he h
        · exact hr h

theorem updatesFor_countP_del (ops : List OpRec) (r : String) :
    ∀ (ids : List String),
    (updatesFor ops ids).countP (isDeleteFor r) = 0 := by
  intro ids
  induction ids with
  | nil => simp [updatesFor]
  | cons id ids ih =>
    have hstep : updatesFor ops (id :: ids) =
        (if (getPropertyIdsFromUpdateOp ops id).length > 0
         then updateEntityOps id (getPropertyIdsFromUpdateOp ops id)
         else []) ++ updatesFor ops ids := rfl
    rw [hstep, List.countP_append, ih]
    by_cases hp : (getPropertyIdsFromUpdateOp ops id).length > 0
    · rw [if_pos hp]
      simp [updateEntityOps, List.countP_cons, isDeleteFor]
    · rw [if_neg hp]
      rfl

theorem deletesFor_countP_upd (e : String) :
    ∀ (ids : List String),
    (deletesFor ids).countP (isUpdateFor e) = 0 := by
  intro ids
  induction ids with
  | nil => simp [deletesFor]
  | cons id ids ih =>
    have hstep : deletesFor (id :: ids) =
        deleteRelationOps id ++ deletesFor ids := rfl
    rw [hstep, List.countP_append, ih]
    simp [deleteRelationOps, List.countP_cons, isUpdateFor]

theorem deletesFor_no_update (e : String) (props : List String) :
    ∀ (ids : List String), OpRec.updateEntity e props ∉ deletesFor ids := by
  intro ids
  induction ids with
  | nil => simp [deletesFor]
  | cons id ids ih =>
    have hstep : deletesFor (id :: ids) =
        deleteRelationOps id ++ deletesFor ids := rfl
    rw [hstep]
    intro h
    rw [List.mem_append] at h
    rcases h with h | h
    · simp [deleteRelationOps] at h
    · exact ih h

/-- C4: for every persisted batch record, the cleanup pass emits exactly
one `updateEntity` operation group per distinct entity id created by a
`createEntity` record whose (first) values list is non-empty — the unset
list being the property ids of the first `createEntity` record for that id
— and exactly one `deleteRelation` operation per distinct relation id
created by a `createRelation` record. -/
theorem cleanup_pass_inverse (ops : List OpRec) :
    (∀ e, (delOps ops).countP (isUpdateFor e) =
      if e ∈ createEntityIds ops ∧ getPropertyIdsFromUpdateOp ops e ≠ []
      then 1 else 0) ∧
    (∀ e props, OpRec.updateEntity e props ∈ delOps ops →
      props = getPropertyIdsFromUpdateOp ops e) ∧
    (∀ r, (delOps ops).countP (isDeleteFor r) =
      if r ∈ createRelationIds ops then 1 else 0) := by
  refine ⟨?_, ?_, ?_⟩
  · intro e
    rw [delOps, List.countP_append, deletesFor_countP_upd, Nat.add_zero,
      updatesFor_countP_upd ops e _ (firstDedup_nodup _)]
    rw [if_congr (and_congr_left' (firstDedup_mem _ _)) rfl rfl]
  · intro e props h
    rw [delOps, List.mem_append] at h
    rcases h with h | h
    · exact updatesFor_mem ops _ e props h
    · exact absurd h (deletesFor_no_update e props _)
  · intro r
    rw [delOps, List.countP_append, updatesFor_countP_del, Nat.zero_add,
      deletesFor_countP_del r _ (firstDedup_nodup _)]
    rw [if_congr (firstDedup_mem _ _) rfl rfl]

/-- Concrete persisted record for the C4 witness: one created entity with
one value, one created relation. -/
def opsC4 : List OpRec :=
  [OpRec.createEntity "e1" [{ property := "p1", value := "v1" }],
   OpRec.createRelation "r1" "e1" "t1" "e2" none]

/-- Witness for C4 at the concrete persisted record `opsC4`. -/
theorem cleanup_pass_inverse_witness :
    (delOps opsC4).countP (isUpdateFor "e1") = 1 ∧
    (delOps opsC4).countP (isDeleteFor "r1") = 1 := by
  have h := cleanup_pass_inverse opsC4
  constructor
  · rw [h.1 "e1", if_pos]
    exact ⟨by decide, by decide⟩
  · rw [h.2.2 "r1", if_pos]
    decide

/-! ## The publishing helper `publishOps` (`src/functions.ts`)

`publishOps` queries the caller's spaces and the target space, then
resolves authority: a `"PERSONAL"` target publishes directly, any other
target goes through the governance proposal flow guarded by the
members/editors check.  The network, wallet and transaction plumbing are
external collaborators; the embedded core is the decision on the queried
data. -/

/-- A row of the caller's space query
(`spaces(filter: { address: ... }) { id type }`). -/
structure CallerSpace where
  id : String
  type : String
deriving DecidableEq, Repr

/-- The queried target space
(`space(id:) { type address membersList editorsList }`); the member lists
carry the `memberSpaceId` fields. -/
structure TargetSpace where
  type : String
  address : String
  membersList : List String
  editorsList : List String
deriving DecidableEq, Repr

/-- The action `publishOps` takes once authority is resolved. -/
inductive PublishAction where
  | publishEdit (author : String)
  | proposeEdit (author : String)
deriving DecidableEq, Repr

/-- The errors `publishOps` raises after the space data is available. -/
inductive PublishError where
  | noPersonalSpace
  | notMemberOrEditor (callerSpaceId : String)
deriving DecidableEq, Repr

/-- The authority-resolution core of `publishOps`: a `"PERSONAL"` space
publishes directly (author is the space id itself) with no membership
check; otherwise the caller's personal space is resolved from the queried
spaces and the edit is proposed when that space id occurs among the
members or editors, else the authorization error is raised. -/
def publishDecision (personalSpaces : List CallerSpace) (spaceId : String)
    (target : TargetSpace) : Except PublishError PublishAction :=
  if target.type = "PERSONAL" then
    Except.ok (PublishAction.publishEdit spaceId)
  else
    match personalSpaces.find? (fun s => s.type == "PERSONAL") with
    | none => Except.error PublishError.noPersonalSpace
    | some cs =>
      if (target.membersList ++ target.editorsList).any
          (fun m => m == cs.id) then
        Except.ok (PublishAction.proposeEdit cs.id)
      else
        Except.error (PublishError.notMemberOrEditor cs.id)

/-- C5: given the queried space data and a resolved caller personal space,
a non-`"PERSONAL"` target raises the authorization error iff the caller's
personal space id is in neither the members list nor the editors list;
when it is a member or editor the edit is proposed, and a `"PERSONAL"`
target publishes directly with no membership check. -/
theorem publishDecision_dao (personalSpaces : List CallerSpace)
    (spaceId : String) (target : TargetSpace) (cs : CallerSpace)
    (hp : target.type ≠ "PERSONAL")
    (hfind : personalSpaces.find? (fun s => s.type == "PERSONAL") = some cs) :
    publishDecision personalSpaces spaceId target =
      if (target.membersList ++ target.editorsList).any
          (fun m => m == cs.id) then
        Except.ok (PublishAction.proposeEdit cs.id)
      else Except.error (PublishError.notMemberOrEditor cs.id) := by
  rw [publishDecision, if_neg hp, hfind]

/-- C5: given the queried space data and a resolved caller personal space,
a non-`"PERSONAL"` target raises the authorization error iff the caller's
personal space id is in neither the members list nor the editors list;
when it is a member or editor the edit is proposed, and a `"PERSONAL"`
target publishes directly with no membership check. -/
theorem publishOps_authorization (personalSpaces : List CallerSpace)
    (spaceId : String) (target : TargetSpace) (cs : CallerSpace)
    (hfind : personalSpaces.find? (fun s => s.type == "PERSONAL") = some cs) :
    (target.type = "PERSONAL" →
      publishDecision personalSpaces spaceId target =
        Except.ok (PublishAction.publishEdit spaceId)) ∧
    (target.type ≠ "PERSONAL" →
      ((publishDecision personalSpaces spaceId target =
          Except.error (PublishError.notMemberOrEditor cs.id)) ↔
        (cs.id ∉ target.membersList ∧ cs.id ∉ target.editorsList)) ∧
      ((cs.id ∈ target.membersList ∨ cs.id ∈ target.editorsList) →
        publishDecision personalSpaces spaceId target =
          Except.ok (PublishAction.proposeEdit cs.id))) := by
  constructor
  · intro hp
    rw [publishDecision, if_pos hp]
  · intro hp
    have hany : ((target.membersList ++ target.editorsList).any
        (fun m => m == cs.id) = true) ↔
        (cs.id ∈ target.membersList ∨ cs.id ∈ target.editorsList) := by
      rw [List.any_eq_true]
      constructor
      · rintro ⟨x, hx, hbe⟩
        rw [beq_iff_eq] at hbe
        subst hbe
        exact List.mem_append.mp hx
      · intro h
        exact ⟨cs.id, List.mem_append.mpr h, by simp⟩
    rw [publishDecision_dao personalSpaces spaceId target cs hp hfind]
    by_cases hm : cs.id ∈ target.membersList ∨ cs.id ∈ target.editorsList
    · rw [if_pos (hany.mpr hm)]
      refine ⟨?_, fun _ => rfl⟩
      constructor
      · intro h; cases h
      · intro h
        rcases hm with hm | hm
        · exact absurd hm h.1
        · exact absurd hm h.2
    · rw [if_neg (fun h => hm (hany.mp h))]
      rw [not_or] at hm
      exact ⟨⟨fun _ => hm, fun _ => rfl⟩,
        fun h => absurd h (by rw [not_or]; exact hm)⟩

/-- Concrete data for the C5 witness. -/
def callerSpaces0 : List CallerSpace :=
  [{ id := "ps1", type := "PERSONAL" }]

def daoWithCaller : TargetSpace :=
  { type := "DAO", address := "0xabc", membersList := ["ps1", "ps2"],
    editorsList := [] }

def daoWithoutCaller : TargetSpace :=
  { type := "DAO", address := "0xabc", membersList := ["ps2"],
    editorsList := ["ps3"] }

def personalTarget : TargetSpace :=
  { type := "PERSONAL", address := "0xdef", membersList := [],
    editorsList := [] }

/-- Witness for C5 at concrete queried data: a member proposes, a
non-member hits the authorization error, a personal space publishes. -/
theorem publishOps_authorization_witness :
    publishDecision callerSpaces0 "sp" daoWithCaller =
      Except.ok (PublishAction.proposeEdit "ps1") ∧
    publishDecision callerSpaces0 "sp" daoWithoutCaller =
      Except.error (PublishError.notMemberOrEditor "ps1") ∧
    publishDecision callerSpaces0 "sp" personalTarget =
      Except.ok (PublishAction.publishEdit "sp") := by
  have h1 := publishOps_authorization callerSpaces0 "sp" daoWithCaller
    { id := "ps1", type := "PERSONAL" } (by decide)
  have h2 := publishOps_authorization callerSpaces0 "sp" daoWithoutCaller
    { id := "ps1", type := "PERSONAL" } (by decide)
  have h3 := publishOps_authorization callerSpaces0 "sp" personalTarget
    { id := "ps1", type := "PERSONAL" } (by decide)
  refine ⟨?_, ?_, h3.1 (by decide)⟩
  · exact (h1.2 (by decide)).2 (Or.inl (by decide))
  · exact ((h2.2 (by decide)).1).mpr ⟨by decide, by decide⟩

/-! ## The GraphQL helper `gql` (`src/functions.ts`)

`gql` performs a single `fetch`, throws on a non-ok HTTP status, throws
when the response body's `errors` field is truthy (any non-null value —
in particular an empty array is truthy in JS), and otherwise returns the
body's `data` field.  The fetch is modelled as an oracle from attempt
number to response; the result carries how many attempts were made. -/

/-- An HTTP/GraphQL response as `gql` observes it: HTTP status, the body's
`errors` field (`none` models absent or null) and its `data` field (an
opaque payload). -/
structure GqlResponse where
  ok : Bool
  status : Nat
  statusText : String
  errors : Option (List String)
  data : String
deriving DecidableEq, Repr

/-- The errors `gql` raises. -/
inductive GqlError where
  | apiError (status : Nat) (statusText : String)
  | graphqlError (firstMessage : Option String)
deriving DecidableEq, Repr

/-- `gql`: one fetch, status check, errors-field check, data. -/
def gql (fetch : Nat → GqlResponse) : Except GqlError String × Nat :=
  let res := fetch 0
  if !res.ok then
    (Except.error (GqlError.apiError res.status res.statusText), 1)
  else
    match res.errors with
    | some es => (Except.error (GqlError.graphqlError es.head?), 1)
    | none => (Except.ok res.data, 1)

def exceptIsError {ε α : Type} : Except ε α → Bool
  | Except.error _ => true
  | Except.ok _ => false

/-- The fetch oracle of the C6 counterexample: HTTP status ok, body with a
present but empty `errors` array. -/
def emptyErrorsFetch : Nat → GqlResponse := fun _ =>
  { ok := true, status := 200, statusText := "OK", errors := some [],
    data := "payload" }

/-- C6 counterexample: the claim says an error is raised exactly when the
status is not ok or the `errors` field is non-empty; on a response with ok
status and an empty `errors` array the code still raises (an empty array
is truthy in JS), refuting the claim as stated. -/
theorem gql_empty_errors_counterexample :
    (emptyErrorsFetch 0).ok = true ∧
    (emptyErrorsFetch 0).errors = some [] ∧
    exceptIsError (gql emptyErrorsFetch).1 = true :=
  ⟨rfl, rfl, rfl⟩

/-- C6 (amended): `gql` performs exactly one request attempt per call with
no retry, raises an error exactly when the HTTP status is not ok or the
body's `errors` field is present (non-null — even when the list is empty),
and otherwise returns the body's `data` field unmodified. -/
theorem gql_single_attempt_error_condition (fetch : Nat → GqlResponse) :
    (gql fetch).2 = 1 ∧
    (exceptIsError (gql fetch).1 = true ↔
      ((fetch 0).ok = false ∨ (fetch 0).errors ≠ none)) ∧
    ((fetch 0).ok = true → (fetch 0).errors = none →
      (gql fetch).1 = Except.ok (fetch 0).data) := by
  have hg : gql fetch =
      (if !(fetch 0).ok then
        (Except.error (GqlError.apiError (fetch 0).status
          (fetch 0).statusText), 1)
      else
        match (fetch 0).errors with
        | some es => (Except.error (GqlError.graphqlError es.head?), 1)
        | none => (Except.ok (fetch 0).data, 1)) := rfl
  rw [hg]
  cases hok : (fetch 0).ok with
  | false =>
    refine ⟨rfl, ⟨fun _ => Or.inl rfl, fun _ => rfl⟩, ?_⟩
    intro h
    exact Bool.noConfusion h
  | true =>
    cases herr : (fetch 0).errors with
    | some es =>
      refine ⟨rfl, ⟨fun _ => Or.inr (by simp), fun _ => rfl⟩, ?_⟩
      intro _ h2
      exact Option.noConfusion h2
    | none =>
      refine ⟨rfl, ⟨?_, ?_⟩, fun _ _ => rfl⟩
      · intro habs
        exact Bool.noConfusion habs
      · rintro (h | h)
        · exact Bool.noConfusion h
        · exact absurd rfl h

/-- The fetch oracle of the C6 witness: a clean, ok response. -/
def okFetch : Nat → GqlResponse := fun _ =>
  { ok := true, status := 200, statusText := "OK", errors := none,
    data := "payload" }

/-- Witness for the amended C6 at the concrete ok response. -/
theorem gql_single_attempt_error_condition_witness :
    (gql okFetch).2 = 1 ∧ (gql okFetch).1 = Except.ok "payload" := by
  have h := gql_single_attempt_error_condition okFetch
  exact ⟨h.1, h.2.2 rfl rfl⟩

/-! ## JSON values and the uuid-byte conversion (`src/functions.ts`)

`printOps` serializes an operation list after rewriting it with
`convertUuidBytes`: a recognized uuid byte object (exactly 16 numeric
entries keyed "0" … "15") becomes its hex string, a dashed-uuid string has
its dashes removed, everything else is traversed structurally.  JSON-like
values are modelled with integral numbers (the repository only handles
integral JS numbers). -/

mutual
inductive Json where
  | null : Json
  | bool (b : Bool) : Json
  | num (n : Int) : Json
  | str (s : String) : Json
  | arr (elems : JsonArr) : Json
  | obj (fields : JsonObj) : Json

inductive JsonArr where
  | nil : JsonArr
  | cons (hd : Json) (tl : JsonArr) : JsonArr

inductive JsonObj where
  | nil : JsonObj
  | cons (key : String) (val : Json) (tl : JsonObj) : JsonObj
end

deriving instance DecidableEq for Json
deriving instance DecidableEq for JsonArr
deriving instance DecidableEq for JsonObj

def JsonObj.length : JsonObj → Nat
  | JsonObj.nil => 0
  | JsonObj.cons _ _ tl => tl.length + 1

/-- `obj[key]` / `key in obj` on a JS object (keys are unique in JS; the
first binding wins). -/
def JsonObj.lookup : JsonObj → String → Option Json
  | JsonObj.nil, _ => none
  | JsonObj.cons k v tl, s => if k = s then some v else tl.lookup s

def JsonArr.length : JsonArr → Nat
  | JsonArr.nil => 0
  | JsonArr.cons _ tl => tl.length + 1

def isByteNum : Option Json → Bool
  | some (Json.num _) => true
  | _ => false

/-- `isUuidByteArray`: a non-array object with exactly 16 keys where
`String(i)` for `i = 0 … 15` is present with a number value. -/
def isUuidByteArray (kvs : JsonObj) : Bool :=
  kvs.length == 16 &&
    (List.range 16).all (fun i => isByteNum (kvs.lookup (toString i)))

/-- The character `"0123456789abcdef"[n]`. -/
def hexDigitChar (n : Nat) : Char :=
  if n < 10 then Char.ofNat (48 + n) else Char.ofNat (87 + n)

/-- Hex digits of a natural number, most significant first (fuelled; fuel
`n + 1` always suffices). -/
def natToHexAux : Nat → Nat → List Char
  | 0, _ => []
  | fuel + 1, n =>
    if n < 16 then [hexDigitChar n]
    else natToHexAux fuel (n / 16) ++ [hexDigitChar (n % 16)]

def natToHex (n : Nat) : List Char := natToHexAux (n + 1) n

/-- JS `Number.prototype.toString(16)` for integral values: sign, then the
hex digits of the absolute value. -/
def intToHex (n : Int) : List Char :=
  if n < 0 then '-' :: natToHex n.natAbs else natToHex n.toNat

/-- JS `String.prototype.padStart(2, "0")`. -/
def padStart2 (s : List Char) : List Char :=
  if s.length ≥ 2 then s else List.replicate (2 - s.length) '0' ++ s

/-- One two-digit segment of `uuidBytesToString`
(`obj[String(i)].toString(16).padStart(2, "0")`). -/
def byteSegment : Option Json → List Char
  | some (Json.num n) => padStart2 (intToHex n)
  | _ => []

/-- `uuidBytesToString` (character level): the 16 segments concatenated. -/
def uuidBytesToStringL (kvs : JsonObj) : List Char :=
  ((List.range 16).map (fun i => byteSegment (kvs.lookup (toString i)))).flatten

def uuidBytesToString (kvs : JsonObj) : String :=
  String.mk (uuidBytesToStringL kvs)

/-- `[0-9a-f]` with the `i` flag, i.e. also `[A-F]`. -/
def isHexAny (c : Char) : Bool :=
  ('0' ≤ c && c ≤ '9') || ('a' ≤ c && c ≤ 'f') || ('A' ≤ c && c ≤ 'F')

/-- Consume exactly `n` hex characters. -/
def hexRun : Nat → List Char → Option (List Char)
  | 0, l => some l
  | _ + 1, [] => none
  | n + 1, c :: l => if isHexAny c then hexRun n l else none

/-- Consume a dash, then exactly `k` hex characters. -/
def dashThen (k : Nat) : List Char → Option (List Char)
  | [] => none
  | c :: rest => if c = '-' then hexRun k rest else none

/-- The anchored test
`/^[0-9a-f]\x7b8\x7d-[0-9a-f]\x7b4\x7d-[0-9a-f]\x7b4\x7d-[0-9a-f]\x7b4\x7d-[0-9a-f]\x7b12\x7d$/i`
on a character list. -/
def testDashedUuidL (l : List Char) : Bool :=
  (((((hexRun 8 l).bind (dashThen 4)).bind (dashThen 4)).bind
    (dashThen 4)).bind (dashThen 12)) == some []

def testDashedUuid (s : String) : Bool := testDashedUuidL s.data

/-- The global dash removal `replace` with the all-dashes regex and the
empty replacement. -/
def removeDashes (s : String) : String :=
  String.mk (s.data.filter (fun c => c != '-'))

mutual
/-- `convertUuidBytes` of `src/functions.ts`: recognized uuid byte objects
become their hex string, dashed-uuid strings lose their dashes, all other
structure (array order, object keys) is preserved and traversed. -/
def convertUuidBytes : Json → Json
  | Json.null => Json.null
  | Json.bool b => Json.bool b
  | Json.num n => Json.num n
  | Json.str s =>
    if testDashedUuid s then Json.str (removeDashes s) else Json.str s
  | Json.arr xs => Json.arr (convertArr xs)
  | Json.obj kvs =>
    if isUuidByteArray kvs then Json.str (uuidBytesToString kvs)
    else Json.obj (convertObj kvs)

def convertArr : JsonArr → JsonArr
  | JsonArr.nil => JsonArr.nil
  | JsonArr.cons x xs => JsonArr.cons (convertUuidBytes x) (convertArr xs)

def convertObj : JsonObj → JsonObj
  | JsonObj.nil => JsonObj.nil
  | JsonObj.cons k v tl => JsonObj.cons k (convertUuidBytes v) (convertObj tl)
end

/-! ## Claim C7: the 32-character lowercase hex id format -/

def isLowerHex (c : Char) : Bool :=
  ('0' ≤ c && c ≤ '9') || ('a' ≤ c && c ≤ 'f')

/-- A canonical identifier: exactly 32 lowercase hex characters, no
separators. -/
def isHex32 (s : String) : Bool :=
  s.length == 32 && s.data.all isLowerHex

/-- All 16 entries of the byte object are integers in [0, 255]. -/
def entriesInByteRange (kvs : JsonObj) : Bool :=
  (List.range 16).all (fun i =>
    match kvs.lookup (toString i) with
    | some (Json.num n) => decide (0 ≤ n) && decide (n < 256)
    | _ => false)

theorem hexDigitChar_lower {n : Nat} (h : n < 16) :
    isLowerHex (hexDigitChar n) = true := by
  interval_cases n <;> decide

theorem natToHexAux_lower : ∀ (fuel m : Nat) (c : Char),
    c ∈ natToHexAux fuel m → isLowerHex c = true := by
  intro fuel
  induction fuel with
  | zero => intro m c h; simp [natToHexAux] at h
  | succ fuel ih =>
    intro m c h
    by_cases hm : m < 16
    · simp only [natToHexAux, hm, if_true, List.mem_singleton] at h
      exact h ▸ hexDigitChar_lower hm
    · simp only [natToHexAux, hm, if_false, List.mem_append,
        List.mem_singleton] at h
      rcases h with h | h
      · exact ih _ _ h
      · exact h ▸ hexDigitChar_lower (Nat.mod_lt _ (by omega))

theorem padStart2_lower {s : List Char}
    (h : ∀ c ∈ s, isLowerHex c = true) :
    ∀ c ∈ padStart2 s, isLowerHex c = true := by
  intro c hc
  rw [padStart2] at hc
  split at hc
  · exact h c hc
  · rw [List.mem_append] at hc
    rcases hc with hc | hc
    · rw [List.eq_of_mem_replicate hc]
      decide
    · exact h c hc

theorem padStart2_byte_length {m : Nat} (h : m < 256) :
    (padStart2 (natToHex m)).length = 2 := by
  by_cases h16 : m < 16
  · have he : natToHex m = [hexDigitChar m] := by
      simp [natToHex, natToHexAux, h16]
    rw [he]
    rfl
  · have he : natToHex m = [hexDigitChar (m / 16), hexDigitChar (m % 16)] := by
      rw [natToHex]
      simp only [natToHexAux, h16, if_false]
      cases m with
      | zero => omega
      | succ f =>
        simp [natToHexAux, show (f + 1) / 16 < 16 by omega]
    rw [he]
    rfl

theorem byteSegment_byte_spec {n : Int} (h0 : 0 ≤ n) (h256 : n < 256) :
    (byteSegment (some (Json.num n))).length = 2 ∧
    ∀ c ∈ byteSegment (some (Json.num n)), isLowerHex c = true := by
  have hneg : ¬ n < 0 := by omega
  have hseg : byteSegment (some (Json.num n)) =
      padStart2 (natToHex n.toNat) := by
    simp [byteSegment, intToHex, hneg]
  have hb : n.toNat < 256 := by omega
  rw [hseg]
  exact ⟨padStart2_byte_length hb,
    padStart2_lower (fun c hc => natToHexAux_lower _ _ c hc)⟩

theorem segs_spec (kvs : JsonObj) : ∀ (idxs : List Nat),
    (∀ i ∈ idxs, ∃ n : Int, kvs.lookup (toString i) = some (Json.num n) ∧
      0 ≤ n ∧ n < 256) →
    ((idxs.map (fun i =>
        byteSegment (kvs.lookup (toString i)))).flatten.length
      = 2 * idxs.length) ∧
    (∀ c ∈ (idxs.map (fun i =>
        byteSegment (kvs.lookup (toString i)))).flatten,
      isLowerHex c = true) := by
  intro idxs
  induction idxs with
  | nil => exact fun _ => ⟨rfl, by simp⟩
  | cons i idxs ih =>
    intro h
    obtain ⟨n, hn, h0, h256⟩ := h i (List.mem_cons_self _ _)
    obtain ⟨ihlen, ihhex⟩ := ih (fun j hj => h j (List.mem_cons_of_mem _ hj))
    obtain ⟨slen, shex⟩ := byteSegment_byte_spec h0 h256
    constructor
    · simp only [List.map_cons, List.flatten_cons, List.length_append,
        ihlen, hn, slen, List.length_cons]
      ring
    · intro c hc
      simp only [List.map_cons, List.flatten_cons, List.mem_append] at hc
      rcases hc with hc | hc
      · rw [hn] at hc
        exact shex c hc
      · exact ihhex c hc

theorem entriesInByteRange_spec {kvs : JsonObj}
    (h : entriesInByteRange kvs = true) :
    ∀ i ∈ List.range 16, ∃ n : Int,
      kvs.lookup (toString i) = some (Json.num n) ∧ 0 ≤ n ∧ n < 256 := by
  intro i hi
  rw [entriesInByteRange, List.all_eq_true] at h
  have hthis := h i hi
  cases hl : kvs.lookup (toString i) with
  | none =>
    rw [hl] at hthis
    exact Bool.noConfusion hthis
  | some v =>
    rw [hl] at hthis
    cases v with
    | num n =>
      have hthis' : (decide (0 ≤ n) && decide (n < 256)) = true := hthis
      rw [Bool.and_eq_true, decide_eq_true_eq, decide_eq_true_eq] at hthis'
      exact ⟨n, rfl, hthis'.1, hthis'.2⟩
    | null => exact Bool.noConfusion hthis
    | bool b => exact Bool.noConfusion hthis
    | str s => exact Bool.noConfusion hthis
    | arr xs => exact Bool.noConfusion hthis
    | obj o => exact Bool.noConfusion hthis

/-- C7: every identifier in the registry — `ROOT_SPACE_ID`, every entry of
`TYPES`, `PROPERTIES` and `VIEWS`, and the two data-source singleton ids —
is a string of exactly 32 lowercase hexadecimal characters with no
separators, and for every object recognized as a uuid byte array whose 16
entries are integers in [0, 255], `uuidBytesToString` returns such a
32-character lowercase hex string. -/
theorem registry_and_uuid_hex :
    registryIds.all isHex32 = true ∧
    ∀ kvs : JsonObj, isUuidByteArray kvs = true →
      entriesInByteRange kvs = true →
      isHex32 (uuidBytesToString kvs) = true := by
  constructor
  · decide
  · intro kvs _ hrange
    obtain ⟨hlen, hhex⟩ := segs_spec kvs (List.range 16)
      (entriesInByteRange_spec hrange)
    rw [isHex32, Bool.and_eq_true]
    constructor
    · rw [beq_iff_eq]
      show (uuidBytesToStringL kvs).length = 32
      rw [uuidBytesToStringL, hlen, List.length_range]
    · rw [List.all_eq_true]
      intro c hc
      exact hhex c hc

/-- A JS object from an association list. -/
def objOfList : List (String × Json) → JsonObj
  | [] => JsonObj.nil
  | (k, v) :: rest => JsonObj.cons k v (objOfList rest)

/-- The all-255 byte object for the C7 witness. -/
def bytesAllFF : JsonObj :=
  objOfList ((List.range 16).map (fun i => (toString i, Json.num 255)))

/-- Witness for C7 at the concrete all-255 byte object. -/
theorem registry_and_uuid_hex_witness :
    registryIds.all isHex32 = true ∧
    isUuidByteArray bytesAllFF = true ∧
    isHex32 (uuidBytesToString bytesAllFF) = true := by
  refine ⟨registry_and_uuid_hex.1, by decide, ?_⟩
  exact registry_and_uuid_hex.2 bytesAllFF (by decide) (by decide)

/-! ## Claim C9: idempotence of `convertUuidBytes` -/

theorem hexRun_some : ∀ (n : Nat) (l r : List Char), hexRun n l = some r →
    ∃ pre, l = pre ++ r ∧ ∀ c ∈ pre, isHexAny c = true := by
  intro n
  induction n with
  | zero =>
    intro l r h
    rw [hexRun] at h
    injection h with h
    exact ⟨[], by simp [h], by simp⟩
  | succ n ih =>
    intro l r h
    cases l with
    | nil => exact Option.noConfusion h
    | cons c cs =>
      rw [hexRun] at h
      by_cases hc : isHexAny c = true
      · rw [if_pos hc] at h
        obtain ⟨pre, hp1, hp2⟩ := ih cs r h
        refine ⟨c :: pre, by simp [hp1], ?_⟩
        intro x hx
        rcases List.mem_cons.mp hx with hx | hx
        · exact hx ▸ hc
        · exact hp2 x hx
      · rw [if_neg hc] at h
        exact Option.noConfusion h

theorem filter_no_dash (l : List Char) :
    ∀ c ∈ l.filter (fun c => c != '-'), c ≠ '-' := by
  intro c hc
  rw [List.mem_filter] at hc
  simpa using hc.2

theorem isLowerHex_ne_dash {c : Char} (h : isLowerHex c = true) : c ≠ '-' := by
  intro he
  subst he
  exact absurd h (by decide)

theorem testDashedUuidL_no_dash {l : List Char} (h : ∀ c ∈ l, c ≠ '-') :
    testDashedUuidL l = false := by
  rw [testDashedUuidL]
  cases h8 : hexRun 8 l with
  | none => rfl
  | some r =>
    obtain ⟨pre, hp, _⟩ := hexRun_some 8 l r h8
    cases r with
    | nil => rfl
    | cons c cs =>
      have hc : c ≠ '-' := by
        apply h
        rw [hp]
        simp
      simp [dashThen, hc]

theorem removeDashes_never_matches (s : String) :
    testDashedUuid (removeDashes s) = false := by
  rw [removeDashes, testDashedUuid]
  exact testDashedUuidL_no_dash (filter_no_dash s.data)

/-- All 16 entries of a byte object that are numbers are nonnegative. -/
def entriesNonneg : JsonObj → Bool
  | JsonObj.nil => true
  | JsonObj.cons _ (Json.num n) tl => decide (0 ≤ n) && entriesNonneg tl
  | JsonObj.cons _ _ tl => entriesNonneg tl

theorem entriesNonneg_lookup : ∀ (kvs : JsonObj) (s : String) (n : Int),
    entriesNonneg kvs = true → kvs.lookup s = some (Json.num n) → 0 ≤ n
  | JsonObj.nil, s, n, _, hl => by
    rw [JsonObj.lookup] at hl
    exact Option.noConfusion hl
  | JsonObj.cons k v tl, s, n, h, hl => by
    rw [JsonObj.lookup] at hl
    by_cases hk : k = s
    · rw [if_pos hk] at hl
      injection hl with hl
      subst hl
      have h' : (decide (0 ≤ n) && entriesNonneg tl) = true := h
      rw [Bool.and_eq_true, decide_eq_true_eq] at h'
      exact h'.1
    · rw [if_neg hk] at hl
      have htl : entriesNonneg tl = true := by
        cases v with
        | num m =>
          have h' : (decide (0 ≤ m) && entriesNonneg tl) = true := h
          rw [Bool.and_eq_true] at h'
          exact h'.2
        | null => exact h
        | bool b => exact h
        | str s' => exact h
        | arr xs => exact h
        | obj o => exact h
      exact entriesNonneg_lookup tl s n htl hl

theorem uuidBytesToStringL_lower_of_nonneg {kvs : JsonObj}
    (h : entriesNonneg kvs = true) :
    ∀ c ∈ uuidBytesToStringL kvs, isLowerHex c = true := by
  intro c hc
  rw [uuidBytesToStringL, List.mem_flatten] at hc
  obtain ⟨seg, hseg, hcseg⟩ := hc
  rw [List.mem_map] at hseg
  obtain ⟨i, _, hi⟩ := hseg
  subst hi
  cases hl : kvs.lookup (toString i) with
  | none =>
    rw [hl] at hcseg
    simp [byteSegment] at hcseg
  | some v =>
    rw [hl] at hcseg
    cases v with
    | num n =>
      have hnn : 0 ≤ n := entriesNonneg_lookup kvs (toString i) n h hl
      have hneg : ¬ n < 0 := by omega
      rw [byteSegment, intToHex, if_neg hneg] at hcseg
      exact padStart2_lower (fun x hx => natToHexAux_lower _ _ x hx) c hcseg
    | null => simp [byteSegment] at hcseg
    | bool b => simp [byteSegment] at hcseg
    | str s => simp [byteSegment] at hcseg
    | arr xs => simp [byteSegment] at hcseg
    | obj o => simp [byteSegment] at hcseg

theorem uuidString_never_matches {kvs : JsonObj}
    (h : entriesNonneg kvs = true) :
    testDashedUuid (uuidBytesToString kvs) = false := by
  rw [uuidBytesToString, testDashedUuid]
  exact testDashedUuidL_no_dash
    (fun c hc => isLowerHex_ne_dash (uuidBytesToStringL_lower_of_nonneg h c hc))

theorem convertObj_length : ∀ (kvs : JsonObj),
    (convertObj kvs).length = kvs.length
  | JsonObj.nil => rfl
  | JsonObj.cons k v tl => by
    rw [convertObj, JsonObj.length, JsonObj.length, convertObj_length tl]

theorem isByteNum_convert (v : Json) :
    isByteNum (some (convertUuidBytes v)) = isByteNum (some v) := by
  cases v with
  | null => rfl
  | bool b => rfl
  | num n => rfl
  | str s =>
    rw [convertUuidBytes]
    split <;> rfl
  | arr xs => rfl
  | obj kvs =>
    rw [convertUuidBytes]
    split <;> rfl

theorem convertObj_lookup : ∀ (kvs : JsonObj) (s : String),
    (convertObj kvs).lookup s = (kvs.lookup s).map convertUuidBytes
  | JsonObj.nil, s => rfl
  | JsonObj.cons k v tl, s => by
    rw [convertObj, JsonObj.lookup, JsonObj.lookup]
    by_cases hk : k = s
    · rw [if_pos hk, if_pos hk]
      rfl
    · rw [if_neg hk, if_neg hk, convertObj_lookup tl s]

theorem isUuidByteArray_convertObj (kvs : JsonObj) :
    isUuidByteArray (convertObj kvs) = isUuidByteArray kvs := by
  have hpt : ∀ i : Nat, isByteNum ((convertObj kvs).lookup (toString i)) =
      isByteNum (kvs.lookup (toString i)) := by
    intro i
    rw [convertObj_lookup]
    cases kvs.lookup (toString i) with
    | none => rfl
    | some v => exact isByteNum_convert v
  rw [isUuidByteArray, isUuidByteArray, convertObj_length]
  simp only [hpt]

mutual
/-- Every recognized uuid byte object reachable in the value has only
nonnegative entries (a negative entry's JS hex rendering starts with a
dash, which is what breaks idempotence). -/
def byteEntriesNonneg : Json → Bool
  | Json.null => true
  | Json.bool _ => true
  | Json.num _ => true
  | Json.str _ => true
  | Json.arr xs => byteEntriesNonnegArr xs
  | Json.obj kvs =>
    (if isUuidByteArray kvs then entriesNonneg kvs else true) &&
      byteEntriesNonnegObj kvs

def byteEntriesNonnegArr : JsonArr → Bool
  | JsonArr.nil => true
  | JsonArr.cons x xs => byteEntriesNonneg x && byteEntriesNonnegArr xs

def byteEntriesNonnegObj : JsonObj → Bool
  | JsonObj.nil => true
  | JsonObj.cons _ v tl => byteEntriesNonneg v && byteEntriesNonnegObj tl
end

mutual
theorem convert_idem : ∀ (j : Json), byteEntriesNonneg j = true →
    convertUuidBytes (convertUuidBytes j) = convertUuidBytes j
  | Json.null, _ => rfl
  | Json.bool b, _ => rfl
  | Json.num n, _ => rfl
  | Json.str s, _ => by
    cases ht : testDashedUuid s with
    | true =>
      have h1 : convertUuidBytes (Json.str s) = Json.str (removeDashes s) := by
        rw [convertUuidBytes, ht]
        simp
      rw [h1, convertUuidBytes, removeDashes_never_matches s]
      simp
    | false =>
      have h1 : convertUuidBytes (Json.str s) = Json.str s := by
        rw [convertUuidBytes, ht]
        simp
      rw [h1]
      exact h1
  | Json.arr xs, h => by
    have h' : byteEntriesNonnegArr xs = true := h
    show Json.arr (convertArr (convertArr xs)) = Json.arr (convertArr xs)
    rw [convertArr_idem xs h']
  | Json.obj kvs, h => by
    have h' : ((if isUuidByteArray kvs then entriesNonneg kvs else true) &&
        byteEntriesNonnegObj kvs) = true := h
    rw [Bool.and_eq_true] at h'
    cases hb : isUuidByteArray kvs with
    | true =>
      have hnn : entriesNonneg kvs = true := by
        have := h'.1
        rw [hb] at this
        simpa using this
      have h1 : convertUuidBytes (Json.obj kvs) =
          Json.str (uuidBytesToString kvs) := by
        rw [convertUuidBytes, hb]
        simp
      rw [h1, convertUuidBytes, uuidString_never_matches hnn]
      simp
    | false =>
      have h1 : convertUuidBytes (Json.obj kvs) =
          Json.obj (convertObj kvs) := by
        rw [convertUuidBytes, hb]
        simp
      rw [h1, convertUuidBytes, isUuidByteArray_convertObj, hb]
      simp
      exact convertObj_idem kvs h'.2

theorem convertArr_idem : ∀ (xs : JsonArr), byteEntriesNonnegArr xs = true →
    convertArr (convertArr xs) = convertArr xs
  | JsonArr.nil, _ => rfl
  | JsonArr.cons x xs, h => by
    have h' : (byteEntriesNonneg x && byteEntriesNonnegArr xs) = true := h
    rw [Bool.and_eq_true] at h'
    show JsonArr.cons (convertUuidBytes (convertUuidBytes x))
        (convertArr (convertArr xs)) =
      JsonArr.cons (convertUuidBytes x) (convertArr xs)
    rw [convert_idem x h'.1, convertArr_idem xs h'.2]

theorem convertObj_idem : ∀ (kvs : JsonObj),
    byteEntriesNonnegObj kvs = true →
    convertObj (convertObj kvs) = convertObj kvs
  | JsonObj.nil, _ => rfl
  | JsonObj.cons k v tl, h => by
    have h' : (byteEntriesNonneg v && byteEntriesNonnegObj tl) = true := h
    rw [Bool.and_eq_true] at h'
    show JsonObj.cons k (convertUuidBytes (convertUuidBytes v))
        (convertObj (convertObj tl)) =
      JsonObj.cons k (convertUuidBytes v) (convertObj tl)
    rw [convert_idem v h'.1, convertObj_idem tl h'.2]
end

/-- C9 (amended): `convertUuidBytes` is idempotent on every JSON-like
value whose recognized 16-entry byte objects have nonnegative entries: a
byte object is replaced by its hex string and a dashed uuid string loses
its dashes on the first pass, neither result changes on a second pass, and
all other structure (array order, object keys) is preserved. -/
theorem convertUuidBytes_idempotent (j : Json)
    (h : byteEntriesNonneg j = true) :
    convertUuidBytes (convertUuidBytes j) = convertUuidBytes j :=
  convert_idem j h

/-- A byte object with negative entries: `(-10).toString(16)` is `"-a"`,
so the 36-character first-pass rendering is a dashed-uuid-shaped string. -/
def badJson : Json := Json.obj (objOfList
  [("0", Json.num 255), ("1", Json.num 255), ("2", Json.num 255),
   ("3", Json.num 255), ("4", Json.num (-10)), ("5", Json.num 2748),
   ("6", Json.num (-10)), ("7", Json.num 2748), ("8", Json.num (-10)),
   ("9", Json.num 2748), ("10", Json.num (-10)), ("11", Json.num 255),
   ("12", Json.num 255), ("13", Json.num 255), ("14", Json.num 255),
   ("15", Json.num 2748)])

/-- C9 counterexample: on `badJson` the first pass yields the string
`"ffffffff-aabc-aabc-aabc-affffffffabc"`, which matches the dashed-uuid
pattern, so the second pass strips its dashes — `convertUuidBytes` is not
idempotent on all JSON-like values. -/
theorem convertUuidBytes_not_idempotent :
    convertUuidBytes (convertUuidBytes badJson) ≠ convertUuidBytes badJson := by
  have h1 : convertUuidBytes badJson =
      Json.str "ffffffff-aabc-aabc-aabc-affffffffabc" := by rfl
  have h2 : convertUuidBytes
      (Json.str "ffffffff-aabc-aabc-aabc-affffffffabc") =
      Json.str "ffffffffaabcaabcaabcaffffffffabc" := by rfl
  rw [h1, h2]
  intro h
  injection h with h
  exact absurd h (by decide)

/-- A well-behaved value for the C9 witness: an array holding an all-255
byte object and a dashed uuid string. -/
def okJson0 : Json :=
  Json.arr (JsonArr.cons (Json.obj bytesAllFF)
    (JsonArr.cons (Json.str "0b9f3a12-5d7e-4c21-9f44-7b6a1e2c3d4e")
      JsonArr.nil))

/-- Witness for the amended C9 at the concrete value `okJson0`. -/
theorem convertUuidBytes_idempotent_witness :
    byteEntriesNonneg okJson0 = true ∧
    convertUuidBytes (convertUuidBytes okJson0) = convertUuidBytes okJson0 :=
  ⟨by decide, convertUuidBytes_idempotent okJson0 (by decide)⟩

/-! ## Claim C10: `printOps` and the file system

`printOps(ops, outputDir, fn)` writes `path.join(outputDir, fn)` exactly
when `ops` is non-empty, and the written content is the JSON serialization
of `convertUuidBytes(ops)`.  The file system is modelled as an association
list from path to content; `JSON.stringify(x, null, 2)` is modelled by a
serializer of the same value (its whitespace layout is abstracted: the
claim concerns which value is serialized, not its indentation). -/

/-- `path.join` for plain relative segments. -/
def pathJoin (dir fn : String) : String := dir ++ "/" ++ fn

/-- JSON string escaping for quote and backslash. -/
def escapeChar (c : Char) : List Char :=
  if c = '"' then ['\\', '"']
  else if c = '\\' then ['\\', '\\']
  else [c]

def escapeString (s : String) : String :=
  String.mk (s.data.foldr (fun c acc => escapeChar c ++ acc) [])

mutual
/-- The JSON serialization of a value (models `JSON.stringify`, layout
abstracted). -/
def stringifyJson : Json → String
  | Json.null => "null"
  | Json.bool true => "true"
  | Json.bool false => "false"
  | Json.num n => toString n
  | Json.str s => "\"" ++ escapeString s ++ "\""
  | Json.arr xs => "[" ++ stringifyArr xs ++ "]"
  | Json.obj kvs => "\x7b" ++ stringifyObj kvs ++ "\x7d"

def stringifyArr : JsonArr → String
  | JsonArr.nil => ""
  | JsonArr.cons x JsonArr.nil => stringifyJson x
  | JsonArr.cons x (JsonArr.cons y ys) =>
    stringifyJson x ++ "," ++ stringifyArr (JsonArr.cons y ys)

def stringifyObj : JsonObj → String
  | JsonObj.nil => ""
  | JsonObj.cons k v JsonObj.nil =>
    "\"" ++ escapeString k ++ "\":" ++ stringifyJson v
  | JsonObj.cons k v (JsonObj.cons k' v' tl) =>
    "\"" ++ escapeString k ++ "\":" ++ stringifyJson v ++ "," ++
      stringifyObj (JsonObj.cons k' v' tl)
end

/-- The file system: paths mapped to contents, most recent write first. -/
def FileSys : Type := List (String × String)

def lookupFile : FileSys → String → Option String
  | [], _ => none
  | (p, c) :: rest, q => if p = q then some c else lookupFile rest q

/-- `fs.writeFileSync(path, content)`. -/
def writeFileSync (fs : FileSys) (p c : String) : FileSys := (p, c) :: fs

/-- `printOps` of `src/functions.ts`: serialize the converted operation
list to `path.join(outputDir, fn)` when it is non-empty, otherwise write
nothing. -/
def printOps (ops : JsonArr) (outputDir fn : String) (fs : FileSys) :
    FileSys :=
  if ops.length > 0 then
    writeFileSync fs (pathJoin outputDir fn)
      (stringifyJson (convertUuidBytes (Json.arr ops)))
  else fs

/-- C10: `printOps` writes a file iff the operation list is non-empty —
for an empty list the file system is untouched, and for a non-empty list
exactly the target path is written, containing the JSON serialization of
`convertUuidBytes` applied to the list; every other path is unchanged. -/
theorem printOps_writes_iff (ops : JsonArr) (outputDir fn : String)
    (fs : FileSys) :
    (ops.length = 0 → printOps ops outputDir fn fs = fs) ∧
    (ops.length > 0 →
      lookupFile (printOps ops outputDir fn fs) (pathJoin outputDir fn) =
        some (stringifyJson (convertUuidBytes (Json.arr ops))) ∧
      ∀ q, q ≠ pathJoin outputDir fn →
        lookupFile (printOps ops outputDir fn fs) q = lookupFile fs q) := by
  constructor
  · intro h0
    rw [printOps, if_neg]
    omega
  · intro hpos
    rw [printOps, if_pos hpos]
    constructor
    · rw [writeFileSync, lookupFile, if_pos rfl]
    · intro q hq
      rw [writeFileSync, lookupFile, if_neg (fun he => hq he.symm)]

/-- Witness for C10: the empty list writes nothing; a one-element list
writes exactly the serialized converted list. -/
theorem printOps_writes_iff_witness :
    printOps JsonArr.nil "data_to_delete" "demo_publish_ops.txt" [] = [] ∧
    lookupFile
      (printOps (JsonArr.cons Json.null JsonArr.nil) "data_to_delete"
        "demo_publish_ops.txt" [])
      "data_to_delete/demo_publish_ops.txt" = some "[null]" := by
  constructor
  · exact (printOps_writes_iff JsonArr.nil "data_to_delete"
      "demo_publish_ops.txt" []).1 rfl
  · have h := (printOps_writes_iff (JsonArr.cons Json.null JsonArr.nil)
      "data_to_delete" "demo_publish_ops.txt" []).2 (by decide)
    have hp : pathJoin "data_to_delete" "demo_publish_ops.txt" =
        "data_to_delete/demo_publish_ops.txt" := rfl
    rw [hp] at h
    rw [h.1]
    rfl
